import Mathlib

/-!
Verification of the treatment reconciliation core of the
`tgintegration` repository (a Telegram ↔ Nightscout bridge).

The development shallowly embeds, from the Python sources:

* `src/app/utils/treatments.py` — the embedded-metadata codec
  (`parse_meta`, `apply_meta_updates`), together with an executable model
  of the fragment of Python's `json` library the codec exercises
  (flat JSON objects whose values are null / bool / int / string).
* `src/app/main.py` — the patch computer (`_different`, the field-diff
  loop of the `PUT /api/treatment` handler) and the handler's record
  resolution and update dispatch.
* `src/app/services/nightscout.py` — the reconciling updater
  (`update_treatment` with its delete / recreate / restore fallback) and
  the paged range fetch (`fetch_treatments_between`).
* `src/scripts/telegram_bot.py` — the per-day aggregation
  (`_aggregate_treatments`, `_record_local_date`, `_pick_number`).

Remote I/O is modelled by an environment that supplies the HTTP response
for each call site; every function additionally returns the trace of
remote calls it issued, so that claims about which calls are (not) made
are statable.  Python dictionaries are modelled as insertion-ordered
association lists, Python numbers as rationals, and Python `None` as a
distinguished `null` value (matching `dict.get`'s conflation of absent
and null).  External-library behavior (the `json` codec, `datetime`
parsing, `float()` literal lexing) is modelled executably on the
fragment the repository exercises; the restrictions are noted at each
definition.
-/

/-- A scalar JSON / Python value as it appears in treatment documents and
embedded metadata.  `null` doubles as Python `None` (and as "field
absent", matching `dict.get`).  `num` carries Python floats as exact
rationals; float rounding is outside the model (the tolerances involved
in the claims are far larger than double-precision error). -/
inductive JVal where
  | null : JVal
  | bool : Bool → JVal
  | int : Int → JVal
  | num : ℚ → JVal
  | str : String → JVal
deriving DecidableEq

/-- An insertion-ordered string-keyed dictionary of scalars: the model of
a Python `dict` such as a parsed metadata object or a patch. -/
abbrev Obj := List (String × JVal)

/-- Model of `d[k] = v` on a Python dict: overwrite in place if the key
exists (keeping its position), append otherwise. -/
def insertKey (m : Obj) (k : String) (v : JVal) : Obj :=
  match m with
  | [] => [(k, v)]
  | (k2, v2) :: rest =>
      if k2 = k then (k2, v) :: rest else (k2, v2) :: insertKey rest k v

/-- Model of `d.pop(k, None)` on a Python dict: remove the key if present. -/
def popKey (m : Obj) (k : String) : Obj :=
  match m with
  | [] => []
  | (k2, v2) :: rest =>
      if k2 = k then rest else (k2, v2) :: popKey rest k

/-- Model of `d.get(k)`: the stored value, or Python `None` (here `.null`)
when the key is absent. -/
def pyGet (m : Obj) (k : String) : JVal :=
  match m with
  | [] => .null
  | (k2, v2) :: rest => if k2 = k then v2 else pyGet rest k

/-- Model of `existing.copy(); .update(patch)` — fold the patch into the
document left to right. -/
def dictUpdate (base : Obj) (upd : Obj) : Obj :=
  upd.foldl (fun d kv => insertKey d kv.1 kv.2) base

/-- Python truthiness of a scalar, as used by `record.get("_id") or tid`
and `if not record and cid`. -/
def pyTruthy : JVal → Bool
  | .null => false
  | .bool b => b
  | .int n => n ≠ 0
  | .num q => q ≠ 0
  | .str s => ¬ s.data.isEmpty

/-- Numeric view used by `isinstance(x, (int, float))` in `_different`
(Python `bool` is a subclass of `int`, so it counts as numeric). -/
def toNumQ : JVal → Option ℚ
  | .int n => some (n : ℚ)
  | .num q => some q
  | .bool b => some (if b then 1 else 0)
  | _ => none

/-- The tolerance used by the patch computer, `1e-6`, exactly. -/
def tol : ℚ := 1 / 1000000

/-- Python `abs` on rationals (kernel-computable). -/
def qabs (q : ℚ) : ℚ := if q < 0 then -q else q

/-- Python binary `max` on rationals (kernel-computable). -/
def qmax (a b : ℚ) : ℚ := if a ≤ b then b else a

/-- Model of `math.isclose(a, b, rel_tol=1e-6, abs_tol=1e-6)`:
`abs(a-b) <= max(rel_tol * max(abs(a), abs(b)), abs_tol)`. -/
def isclose (a b : ℚ) : Bool :=
  decide (qabs (a - b) ≤ qmax (tol * qmax (qabs a) (qabs b)) tol)

/-- Embedding of `_different` from `src/app/main.py` (lines 97–102): two
`None`s are not different; two numerics are compared with `isclose`;
everything else falls back to Python `!=`, which on the scalar values in
scope coincides with structural disequality (the cross-type numeric
equalities `1 == 1.0`, `True == 1` are already caught by the numeric
branch). -/
def _different (current newValue : JVal) : Bool :=
  if current = .null ∧ newValue = .null then false
  else
    match toNumQ current, toNumQ newValue with
    | some a, some b => ! isclose a b
    | _, _ => current ≠ newValue

/-- The reading of claim C4's equality rule taken literally: within BOTH
the relative and the absolute tolerance.  This follows the claim's
words, for comparison against the code's `isclose` (which is the more
lenient `max` / or-combination). -/
def withinBothTol (a b : ℚ) : Prop :=
  qabs (a - b) ≤ tol * qmax (qabs a) (qabs b) ∧ qabs (a - b) ≤ tol

instance (a b : ℚ) : Decidable (withinBothTol a b) := by
  unfold withinBothTol; infer_instance

example : isclose 10 (100000001 / 10000000) = true := by
  simp only [isclose, qabs, qmax, tol, decide_eq_true_eq]
  norm_num
example : isclose 10 (101 / 10) = false := by
  simp only [isclose, qabs, qmax, tol, decide_eq_false_iff_not]
  norm_num
example : _different (.num 10) (.num (100000001 / 10000000)) = false := by
  simp only [_different, toNumQ, isclose, qabs, qmax, tol]
  norm_num
example : _different (.num 10) (.num (101 / 10)) = true := by
  norm_num [_different, toNumQ, isclose, qabs, qmax, tol]
  exact Or.inl (by intro h; cases h)

/-!
Executable model of the fragment of Python's `json` library used by the
metadata codec: flat JSON objects whose values are `null`, booleans,
integers, or strings.  Out of the model's scope (documented
restrictions, none of which is exercised by the repository's own
writes): nested containers, floats, exponent / leading-zero numeric
syntax, `\uXXXX` and control-character escapes.  `json.dumps(...,
ensure_ascii=False, separators=(",", ":"))` is modelled by `dumpObj`;
`json.loads` restricted to this fragment by `jsonParseObj` /
`jsonParseTop`.
-/

/-- JSON insignificant whitespace. -/
def isWsChar (c : Char) : Bool :=
  c = ' ' ∨ c = '\t' ∨ c = '\n' ∨ c = '\r'

/-- Skip leading JSON whitespace. -/
def skipWs : List Char → List Char
  | [] => []
  | c :: cs => if isWsChar c then skipWs cs else c :: cs

/-- ASCII digit test. -/
def isDigitChar (c : Char) : Bool := 48 ≤ c.toNat ∧ c.toNat ≤ 57

/-- Value of an ASCII digit. -/
def digitVal (c : Char) : Nat := c.toNat - '0'.toNat

/-- The ASCII digit for a value below ten. -/
def digitChar (n : Nat) : Char := Char.ofNat ('0'.toNat + n)

/-- Longest digit prefix and the rest. -/
def spanDigits : List Char → List Char × List Char
  | [] => ([], [])
  | c :: cs =>
      if isDigitChar c then
        let p := spanDigits cs
        (c :: p.1, p.2)
      else ([], c :: cs)

/-- Fold a digit list (most significant first) onto an accumulator. -/
def digitsToNat : List Char → Nat → Nat
  | [], acc => acc
  | c :: cs, acc => digitsToNat cs (acc * 10 + digitVal c)

/-- Little-endian digits, structurally recursive on a fuel bound so the
kernel can evaluate it (`fuel ≥ n` always suffices). -/
def natToRevDigitsFuel : Nat → Nat → List Char
  | 0, _ => []
  | _ + 1, 0 => []
  | fuel + 1, n + 1 => digitChar ((n + 1) % 10) :: natToRevDigitsFuel fuel ((n + 1) / 10)

/-- Little-endian digits of a positive number (empty for zero). -/
def natToRevDigits (n : Nat) : List Char := natToRevDigitsFuel n n

/-- Decimal rendering of a natural number. -/
def natChars (n : Nat) : List Char :=
  if n = 0 then ['0'] else (natToRevDigits n).reverse

/-- Decimal rendering of an integer. -/
def intChars : Int → List Char
  | .ofNat n => natChars n
  | .negSucc n => '-' :: natChars (n + 1)

/-- JSON string escaping for one character (the model escapes the quote
and the backslash; characters below `0x20` are outside the modelled
fragment). -/
def escChar (c : Char) : List Char :=
  if c = '"' then ['\\', '"']
  else if c = '\\' then ['\\', '\\']
  else [c]

/-- JSON string escaping. -/
def escStr : List Char → List Char
  | [] => []
  | c :: cs => escChar c ++ escStr cs

/-- Serialization of one scalar value.  Python floats (`.num`) never
reach the serializer within the modelled fragment (their `repr`-based
rendering is not modelled); the placeholder keeps the function total. -/
def dumpVal : JVal → List Char
  | .null => (("null" : String)).data
  | .bool true => (("true" : String)).data
  | .bool false => (("false" : String)).data
  | .int n => intChars n
  | .num _ => ['0']
  | .str s => '"' :: (escStr s.data ++ ['"'])

/-- Serialization of one `"key":value` member. -/
def dumpPair (k : String) (v : JVal) : List Char :=
  '"' :: (escStr k.data ++ '"' :: ':' :: dumpVal v)

/-- Comma-joined members, per `separators=(",", ":")`. -/
def dumpPairsAux : Obj → List Char
  | [] => []
  | [(k, v)] => dumpPair k v
  | (k, v) :: rest => dumpPair k v ++ ',' :: dumpPairsAux rest

/-- Model of `json.dumps(obj, ensure_ascii=False, separators=(",", ":"))`
on a flat object of scalars. -/
def dumpObj (m : Obj) : List Char :=
  '\x7b' :: (dumpPairsAux m ++ ['\x7d'])

/-- Parse the body of a JSON string (after the opening quote), decoding
the two modelled escapes, up to the closing quote. -/
def parseStringBody : List Char → Option (List Char × List Char)
  | [] => none
  | c :: rest =>
      if c = '"' then some ([], rest)
      else if c = '\\' then
        match rest with
        | [] => none
        | e :: rest2 =>
            if e = '"' ∨ e = '\\' then
              (parseStringBody rest2).map (fun p => (e :: p.1, p.2))
            else none
      else (parseStringBody rest).map (fun p => (c :: p.1, p.2))

/-- Parse a nonempty digit run as a natural number. -/
def parseNatNum (cs : List Char) : Option (Nat × List Char) :=
  let p := spanDigits cs
  if p.1.isEmpty then none else some (digitsToNat p.1 0, p.2)

/-- Boolean prefix test on character lists (Python `str.startswith`;
also used to test one expected character during parsing). -/
def startsWithChars : List Char → List Char → Bool
  | [], _ => true
  | _ :: _, [] => false
  | p :: ps, c :: cs => p = c && startsWithChars ps cs

/-- Parse one scalar JSON value. -/
def parseVal (cs : List Char) : Option (JVal × List Char) :=
  if startsWithChars ['n', 'u', 'l', 'l'] cs then some (.null, cs.drop 4)
  else if startsWithChars ['t', 'r', 'u', 'e'] cs then some (.bool true, cs.drop 4)
  else if startsWithChars ['f', 'a', 'l', 's', 'e'] cs then some (.bool false, cs.drop 5)
  else
    match cs with
    | [] => none
    | c :: rest =>
        if c = '"' then
          (parseStringBody rest).map (fun p => (.str (String.mk p.1), p.2))
        else if c = '-' then
          (parseNatNum rest).map (fun p => (.int (-(p.1 : Int)), p.2))
        else
          (parseNatNum (c :: rest)).map (fun p => (.int (p.1 : Int), p.2))

/-- Parse one `"key" : value` member (leading whitespace allowed). -/
def parsePair (cs : List Char) : Option ((String × JVal) × List Char) :=
  match skipWs cs with
  | '"' :: rest =>
      (parseStringBody rest).bind (fun kk =>
        let r1 := skipWs kk.2
        if startsWithChars [':'] r1 then
          (parseVal (skipWs (r1.drop 1))).map (fun p => ((String.mk kk.1, p.1), p.2))
        else none)
  | _ => none

/-- Parse a comma-separated member list (fuel bounds the member count;
callers pass the input length, which always suffices). -/
def parseMembers : Nat → List Char → Option (List (String × JVal) × List Char)
  | 0, _ => none
  | fuel + 1, cs =>
      (parsePair cs).bind (fun kvr =>
        let r1 := skipWs kvr.2
        if startsWithChars [','] r1 then
          (parseMembers fuel (r1.drop 1)).map (fun p => (kvr.1 :: p.1, p.2))
        else some ([kvr.1], r1))

/-- Fold parsed members into a dict, later keys winning, as Python's
object decoding does. -/
def pairsToDict (ps : List (String × JVal)) : Obj :=
  ps.foldl (fun d kv => insertKey d kv.1 kv.2) []

/-- Parse an object body, given the input after the opening brace;
returns the dict and the input after the closing brace. -/
def parseObjBody (cs : List Char) : Option (Obj × List Char) :=
  let cs2 := skipWs cs
  if startsWithChars ['\x7d'] cs2 then some ([], cs2.drop 1)
  else
    (parseMembers (cs2.length + 1) cs2).bind (fun p =>
      let r1 := skipWs p.2
      if startsWithChars ['\x7d'] r1 then some (pairsToDict p.1, r1.drop 1) else none)

/-- Model of `json.loads` on a whole input that must be a flat object of
scalars (the shape the metadata codec stores and reads back). -/
def jsonParseObj (cs : List Char) : Option Obj :=
  let cs1 := skipWs cs
  if startsWithChars ['\x7b'] cs1 then
    (parseObjBody (cs1.drop 1)).bind
      (fun p => if (skipWs p.2).isEmpty then some p.1 else none)
  else none

/-- A whole JSON document that is either a flat object or a scalar: the
shape of store response bodies the updater parses. -/
inductive JTop where
  | val : JVal → JTop
  | obj : Obj → JTop
deriving DecidableEq

/-- Model of `json.loads` on a response body (flat object or scalar). -/
def jsonParseTop (cs : List Char) : Option JTop :=
  let cs1 := skipWs cs
  if startsWithChars ['\x7b'] cs1 then
    (parseObjBody (cs1.drop 1)).bind
      (fun p => if (skipWs p.2).isEmpty then some (.obj p.1) else none)
  else
    (parseVal cs1).bind
      (fun p => if (skipWs p.2).isEmpty then some (.val p.1) else none)

/-- The metadata sentinel from `src/app/utils/treatments.py`. -/
def META_PREFIX : String := "[alice-meta]"


/-- Python falsiness of an optional string (`not notes` is true for both
`None` and the empty string). -/
def strFalsy : Option String → Bool
  | none => true
  | some s => s.data.isEmpty

/-- Embedding of `parse_meta` from `src/app/utils/treatments.py` (lines
9–16): empty / missing notes, notes without the sentinel, and sentinel
notes whose payload fails to parse all decode to the empty mapping.
Payloads that are valid JSON but not objects are outside the modelled
fragment (the Python code would crash on the subsequent mutation of a
non-dict, a path no claim exercises). -/
def parse_meta (notes : Option String) : Obj :=
  match notes with
  | none => []
  | some s =>
      if s.data.isEmpty then []
      else if startsWithChars META_PREFIX.data s.data then
        match jsonParseObj (s.data.drop META_PREFIX.data.length) with
        | some m => m
        | none => []
      else []

/-- The merge loop of `apply_meta_updates`: a `None` value removes the
key, any other value overwrites it. -/
def applyUpdates (meta : Obj) (updates : Obj) : Obj :=
  updates.foldl
    (fun m kv => if kv.2 = .null then popKey m kv.1 else insertKey m kv.1 kv.2)
    meta

/-- Embedding of `apply_meta_updates` from `src/app/utils/treatments.py`
(lines 19–38). -/
def apply_meta_updates (notes : Option String) (updates : Obj) : Option String :=
  if updates.isEmpty then notes
  else
    let meta := parse_meta notes
    let meta2 :=
      if meta.isEmpty && strFalsy notes then [(("ver" : String), JVal.int 1)] else meta
    if meta2.isEmpty then notes
    else some (String.mk (META_PREFIX.data ++ dumpObj (applyUpdates meta2 updates)))

example :
    apply_meta_updates none [(("a" : String), JVal.int 1)] =
      some (String.mk (META_PREFIX.data ++ dumpObj
        [(("ver" : String), JVal.int 1), (("a" : String), JVal.int 1)])) := by
  rfl

example : parse_meta (apply_meta_updates none [(("a" : String), JVal.int 1)]) =
    [(("ver" : String), JVal.int 1), (("a" : String), JVal.int 1)] := by
  decide

example : apply_meta_updates (some ("[alice-meta]" : String)) [(("a" : String), JVal.int 1)] =
    some ("[alice-meta]" : String) := by
  rfl

/-!
Round-trip lemmas: on the modelled JSON fragment, the parser recovers
exactly what the serializer produced.
-/

/-- True when the input does not begin with a digit (so a preceding
maximal digit run ends exactly there). -/
def notDigitStart : List Char → Bool
  | [] => true
  | c :: _ => ! isDigitChar c

/-- Characters that may appear in a modelled metadata string: everything
at or above the space character (controls would be `\uXXXX`-escaped by
Python's serializer, which the model does not implement). -/
def cleanChar (c : Char) : Prop := 32 ≤ c.toNat

/-- A string within the modelled JSON fragment. -/
def cleanStr (s : String) : Prop := ∀ c ∈ s.data, cleanChar c

/-- A scalar within the modelled JSON fragment (no floats: Python's
`repr`-based float rendering is not modelled). -/
def cleanVal : JVal → Prop
  | .null => True
  | .bool _ => True
  | .int _ => True
  | .num _ => False
  | .str s => cleanStr s

/-- A metadata object within the modelled JSON fragment. -/
def cleanMeta (m : Obj) : Prop := ∀ kv ∈ m, cleanVal kv.2

lemma skipWs_not_ws {c : Char} (h : isWsChar c = false) (cs : List Char) :
    skipWs (c :: cs) = c :: cs := by
  simp [skipWs, h]

lemma stringMk_data (s : String) : String.mk s.data = s := rfl

lemma parseStringBody_escape (e : Char) (rest : List Char) (he : e = '"' ∨ e = '\\') :
    parseStringBody ('\\' :: e :: rest) =
      (parseStringBody rest).map (fun p => (e :: p.1, p.2)) := by
  have h : parseStringBody ('\\' :: e :: rest) =
      if e = '"' ∨ e = '\\' then (parseStringBody rest).map (fun p => (e :: p.1, p.2))
      else none := rfl
  rw [h, if_pos he]

lemma parseStringBody_other (c : Char) (rest : List Char) (hq : c ≠ '"') (hb : c ≠ '\\') :
    parseStringBody (c :: rest) =
      (parseStringBody rest).map (fun p => (c :: p.1, p.2)) := by
  cases rest with
  | nil =>
      have h : parseStringBody [c] =
          if c = '"' then some ([], [])
          else if c = '\\' then none
          else (parseStringBody []).map (fun p => (c :: p.1, p.2)) := rfl
      rw [h, if_neg hq, if_neg hb]
  | cons e rest2 =>
      have h : parseStringBody (c :: e :: rest2) =
          if c = '"' then some ([], e :: rest2)
          else if c = '\\' then
            (if e = '"' ∨ e = '\\' then
              (parseStringBody rest2).map (fun p => (e :: p.1, p.2))
             else none)
          else (parseStringBody (e :: rest2)).map (fun p => (c :: p.1, p.2)) := rfl
      rw [h, if_neg hq, if_neg hb]

lemma parseStringBody_quote (rest : List Char) :
    parseStringBody ('"' :: rest) = some ([], rest) := by
  cases rest <;> rfl

lemma parseStringBody_round (s rest : List Char) :
    parseStringBody (escStr s ++ '"' :: rest) = some (s, rest) := by
  induction s with
  | nil => exact parseStringBody_quote rest
  | cons c cs ih =>
      by_cases hq : c = '"'
      · subst hq
        show parseStringBody ('\\' :: '"' :: (escStr cs ++ '"' :: rest)) = _
        rw [parseStringBody_escape _ _ (Or.inl rfl), ih]
        rfl
      · by_cases hb : c = '\\'
        · subst hb
          show parseStringBody ('\\' :: '\\' :: (escStr cs ++ '"' :: rest)) = _
          rw [parseStringBody_escape _ _ (Or.inr rfl), ih]
          rfl
        · have hec : escChar c = [c] := by
            unfold escChar
            rw [if_neg hq, if_neg hb]
          simp only [escStr, hec, List.cons_append, List.nil_append]
          rw [parseStringBody_other c _ hq hb, ih]
          rfl

lemma isDigitChar_digitChar {d : Nat} (h : d < 10) : isDigitChar (digitChar d) = true := by
  interval_cases d <;> decide

lemma digitVal_digitChar {d : Nat} (h : d < 10) : digitVal (digitChar d) = d := by
  interval_cases d <;> decide

lemma natToRevDigitsFuel_digits :
    ∀ fuel n, ∀ c ∈ natToRevDigitsFuel fuel n, isDigitChar c = true := by
  intro fuel
  induction fuel with
  | zero => intro n c hc; simp [natToRevDigitsFuel] at hc
  | succ f ih =>
      intro n c hc
      cases n with
      | zero => simp [natToRevDigitsFuel] at hc
      | succ m =>
          simp only [natToRevDigitsFuel, List.mem_cons] at hc
          rcases hc with h | h
          · subst h; exact isDigitChar_digitChar (Nat.mod_lt _ (by omega))
          · exact ih _ _ h

lemma digitsToNat_append (acc : Nat) (l1 l2 : List Char) :
    digitsToNat (l1 ++ l2) acc = digitsToNat l2 (digitsToNat l1 acc) := by
  induction l1 generalizing acc with
  | nil => rfl
  | cons c cs ih => exact ih (acc * 10 + digitVal c)

lemma digitsToNat_revDigits :
    ∀ fuel n acc, n ≤ fuel →
      digitsToNat ((natToRevDigitsFuel fuel n).reverse) acc =
        acc * 10 ^ (natToRevDigitsFuel fuel n).length + n := by
  intro fuel
  induction fuel with
  | zero =>
      intro n acc h
      have hn : n = 0 := by omega
      subst hn
      rw [show natToRevDigitsFuel 0 0 = [] from rfl]
      simp [digitsToNat]
  | succ f ih =>
      intro n acc h
      cases n with
      | zero =>
          rw [show natToRevDigitsFuel (f + 1) 0 = [] from rfl]
          simp [digitsToNat]
      | succ m =>
          have hdiv : (m + 1) / 10 ≤ f := by omega
          rw [show natToRevDigitsFuel (f + 1) (m + 1) =
                digitChar ((m + 1) % 10) :: natToRevDigitsFuel f ((m + 1) / 10) from rfl]
          rw [List.reverse_cons, digitsToNat_append, ih _ _ hdiv]
          have hlt : (m + 1) % 10 < 10 := Nat.mod_lt _ (by omega)
          rw [show ∀ X d, digitsToNat [d] X = X * 10 + digitVal d from fun X d => rfl]
          rw [digitVal_digitChar hlt, List.length_cons, pow_succ]
          have hm : 10 * ((m + 1) / 10) + (m + 1) % 10 = m + 1 := Nat.div_add_mod (m + 1) 10
          generalize (10 : Nat) ^ (natToRevDigitsFuel f ((m + 1) / 10)).length = P
          linarith [hm]

lemma natChars_digits (n : Nat) : ∀ c ∈ natChars n, isDigitChar c = true := by
  intro c hc
  unfold natChars at hc
  split at hc
  · simp at hc; subst hc; decide
  · rw [List.mem_reverse] at hc
    exact natToRevDigitsFuel_digits _ _ _ hc

lemma natChars_ne_nil (n : Nat) : natChars n ≠ [] := by
  unfold natChars
  split
  · simp
  · rename_i h
    unfold natToRevDigits
    cases n with
    | zero => exact absurd rfl h
    | succ m => simp [natToRevDigitsFuel]

lemma digitsToNat_natChars (n : Nat) : digitsToNat (natChars n) 0 = n := by
  unfold natChars
  split
  · rename_i h; subst h; decide
  · unfold natToRevDigits
    have := digitsToNat_revDigits n n 0 le_rfl
    simpa using this

lemma spanDigits_append (ds rest : List Char) (hds : ∀ c ∈ ds, isDigitChar c = true)
    (hrest : notDigitStart rest = true) :
    spanDigits (ds ++ rest) = (ds, rest) := by
  induction ds with
  | nil =>
      cases rest with
      | nil => rfl
      | cons c cs =>
          simp only [notDigitStart, Bool.not_eq_true'] at hrest
          simp [spanDigits, hrest]
  | cons c cs ih =>
      have hc : isDigitChar c = true := hds c (by simp)
      simp [spanDigits, hc, ih (fun x hx => hds x (by simp [hx]))]

lemma parseNatNum_natChars (n : Nat) (rest : List Char) (h : notDigitStart rest = true) :
    parseNatNum (natChars n ++ rest) = some (n, rest) := by
  unfold parseNatNum
  rw [spanDigits_append _ _ (natChars_digits n) h]
  simp [List.isEmpty_iff, natChars_ne_nil n, digitsToNat_natChars n]

lemma digit_not_special {c : Char} (hc : isDigitChar c = true) :
    c ≠ 'n' ∧ c ≠ 't' ∧ c ≠ 'f' ∧ c ≠ '"' ∧ c ≠ '-' ∧ isWsChar c = false := by
  simp only [isDigitChar, decide_eq_true_eq] at hc
  refine ⟨?_, ?_, ?_, ?_, ?_, ?_⟩
  · intro h; subst h; exact absurd hc (by decide)
  · intro h; subst h; exact absurd hc (by decide)
  · intro h; subst h; exact absurd hc (by decide)
  · intro h; subst h; exact absurd hc (by decide)
  · intro h; subst h; exact absurd hc (by decide)
  · simp only [isWsChar, decide_eq_false_iff_not]
    rintro (h | h | h | h) <;> (subst h; exact absurd hc (by decide))

lemma startsWithChars_prefix (p t : List Char) : startsWithChars p (p ++ t) = true := by
  induction p with
  | nil => rfl
  | cons a as ih => simp [startsWithChars, ih]

lemma startsWithChars_head_ne {p c : Char} (h : p ≠ c) (ps T : List Char) :
    startsWithChars (p :: ps) (c :: T) = false := by
  simp [startsWithChars, h]

lemma dumpVal_cons (v : JVal) :
    ∃ c cs, dumpVal v = c :: cs ∧ isWsChar c = false := by
  cases v with
  | null => exact ⟨'n', _, rfl, by decide⟩
  | bool b =>
      cases b
      · exact ⟨'f', _, rfl, by decide⟩
      · exact ⟨'t', _, rfl, by decide⟩
  | num q => exact ⟨'0', _, rfl, by decide⟩
  | str s => exact ⟨'"', _, rfl, by decide⟩
  | int n =>
      cases n with
      | ofNat m =>
          obtain ⟨c, cs, hcc⟩ := List.exists_cons_of_ne_nil (natChars_ne_nil m)
          refine ⟨c, cs, hcc, ?_⟩
          have hd : isDigitChar c = true := natChars_digits m c (by rw [hcc]; simp)
          exact (digit_not_special hd).2.2.2.2.2
      | negSucc m => exact ⟨'-', _, rfl, by decide⟩

lemma parseVal_dump (v : JVal) (rest : List Char) (hv : cleanVal v)
    (h : notDigitStart rest = true) :
    parseVal (dumpVal v ++ rest) = some (v, rest) := by
  cases v with
  | null => rfl
  | bool b => cases b <;> rfl
  | num q => exact absurd hv (by simp [cleanVal])
  | str s =>
      have hassoc : (escStr s.data ++ ['"']) ++ rest = escStr s.data ++ '"' :: rest := by
        simp
      show parseVal ('"' :: ((escStr s.data ++ ['"']) ++ rest)) = _
      rw [hassoc]
      have h1 : parseVal ('"' :: (escStr s.data ++ '"' :: rest)) =
          (parseStringBody (escStr s.data ++ '"' :: rest)).map
            (fun p => (.str (String.mk p.1), p.2)) := rfl
      rw [h1, parseStringBody_round]
      rfl
  | int n =>
      cases n with
      | ofNat m =>
          obtain ⟨c, cs, hcc⟩ := List.exists_cons_of_ne_nil (natChars_ne_nil m)
          have hd : isDigitChar c = true := natChars_digits m c (by rw [hcc]; simp)
          obtain ⟨h1, h2, h3, h4, h5, h6⟩ := digit_not_special hd
          show parseVal (natChars m ++ rest) = _
          rw [hcc, List.cons_append]
          simp only [parseVal,
            startsWithChars_head_ne (show 'n' ≠ c from fun he => h1 he.symm),
            startsWithChars_head_ne (show 't' ≠ c from fun he => h2 he.symm),
            startsWithChars_head_ne (show 'f' ≠ c from fun he => h3 he.symm),
            if_false, Bool.false_eq_true, if_neg h4, if_neg h5]
          rw [← List.cons_append, ← hcc, parseNatNum_natChars m rest h]
          rfl
      | negSucc m =>
          show parseVal ('-' :: (natChars (m + 1) ++ rest)) = _
          have h1 : parseVal ('-' :: (natChars (m + 1) ++ rest)) =
              (parseNatNum (natChars (m + 1) ++ rest)).map
                (fun p => (.int (-(p.1 : Int)), p.2)) := rfl
          rw [h1, parseNatNum_natChars (m + 1) rest h]
          simp [Int.negSucc_eq]

lemma parsePair_dump (k : String) (v : JVal) (rest : List Char) (hv : cleanVal v)
    (h : notDigitStart rest = true) :
    parsePair (dumpPair k v ++ rest) = some ((k, v), rest) := by
  have hin : dumpPair k v ++ rest =
      '"' :: (escStr k.data ++ '"' :: ':' :: (dumpVal v ++ rest)) := by
    simp [dumpPair]
  rw [hin]
  have h1 : parsePair ('"' :: (escStr k.data ++ '"' :: ':' :: (dumpVal v ++ rest))) =
      (parseStringBody (escStr k.data ++ '"' :: ':' :: (dumpVal v ++ rest))).bind (fun kk =>
        let r1 := skipWs kk.2
        if startsWithChars [':'] r1 then
          (parseVal (skipWs (r1.drop 1))).map (fun p => ((String.mk kk.1, p.1), p.2))
        else none) := rfl
  rw [h1, parseStringBody_round]
  have h2 : (some ((k.data : List Char), ':' :: (dumpVal v ++ rest))).bind (fun kk =>
        let r1 := skipWs kk.2
        if startsWithChars [':'] r1 then
          (parseVal (skipWs (r1.drop 1))).map (fun p => ((String.mk kk.1, p.1), p.2))
        else none)
      = (parseVal (skipWs (dumpVal v ++ rest))).map
          (fun p => ((String.mk k.data, p.1), p.2)) := rfl
  rw [h2]
  obtain ⟨c0, cs0, hc0, hw0⟩ := dumpVal_cons v
  rw [hc0, List.cons_append, skipWs_not_ws hw0, ← List.cons_append, ← hc0,
    parseVal_dump v rest hv h]
  rfl

lemma dumpPairsAux_cons_shape (m : Obj) (hm : m ≠ []) :
    ∃ Y, dumpPairsAux m = '"' :: Y := by
  cases m with
  | nil => exact absurd rfl hm
  | cons kv m2 =>
      cases m2 with
      | nil =>
          exact ⟨escStr kv.1.data ++ '"' :: ':' :: dumpVal kv.2, rfl⟩
      | cons p ps =>
          exact ⟨(escStr kv.1.data ++ '"' :: ':' :: dumpVal kv.2) ++
            ',' :: dumpPairsAux (p :: ps), rfl⟩

lemma dumpPairsAux_length_ge (m : Obj) : m.length ≤ (dumpPairsAux m).length := by
  induction m with
  | nil => simp [dumpPairsAux]
  | cons kv m2 ih =>
      cases m2 with
      | nil => simp [dumpPairsAux, dumpPair]
      | cons p ps =>
          have hstep : dumpPairsAux (kv :: p :: ps) =
              dumpPair kv.1 kv.2 ++ ',' :: dumpPairsAux (p :: ps) := rfl
          rw [hstep]
          simp only [List.length_append, List.length_cons, dumpPair]
          simp only [List.length_cons] at ih ⊢
          omega

lemma parseMembers_dump :
    ∀ (m : Obj) (fuel : Nat) (rest : List Char), m ≠ [] → m.length ≤ fuel →
      cleanMeta m →
      parseMembers fuel (dumpPairsAux m ++ '\x7d' :: rest) = some (m, '\x7d' :: rest) := by
  intro m
  induction m with
  | nil => intro fuel rest hne; exact absurd rfl hne
  | cons kv m2 ih =>
      intro fuel rest hne hlen hcl
      obtain ⟨k, v⟩ := kv
      cases fuel with
      | zero => simp at hlen
      | succ f =>
          have hv : cleanVal v := hcl (k, v) (by simp)
          cases m2 with
          | nil =>
              have hstep : parseMembers (f + 1) (dumpPair k v ++ '\x7d' :: rest) =
                  (parsePair (dumpPair k v ++ '\x7d' :: rest)).bind (fun kvr =>
                    let r1 := skipWs kvr.2
                    if startsWithChars [','] r1 then
                      (parseMembers f (r1.drop 1)).map (fun p => (kvr.1 :: p.1, p.2))
                    else some ([kvr.1], r1)) := rfl
          
              show parseMembers (f + 1) (dumpPairsAux [(k, v)] ++ '\x7d' :: rest) = _
              rw [show dumpPairsAux [(k, v)] = dumpPair k v from rfl, hstep,
                parsePair_dump k v ('\x7d' :: rest) hv (by rfl)]
              rfl
          | cons p ps =>
              have hstep2 : dumpPairsAux ((k, v) :: p :: ps) =
                  dumpPair k v ++ ',' :: dumpPairsAux (p :: ps) := rfl
              rw [hstep2]
              have hassoc : (dumpPair k v ++ ',' :: dumpPairsAux (p :: ps)) ++ '\x7d' :: rest =
                  dumpPair k v ++ ',' :: (dumpPairsAux (p :: ps) ++ '\x7d' :: rest) := by
                simp
              rw [hassoc]
              have hstep : parseMembers (f + 1)
                    (dumpPair k v ++ ',' :: (dumpPairsAux (p :: ps) ++ '\x7d' :: rest)) =
                  (parsePair (dumpPair k v ++
                      ',' :: (dumpPairsAux (p :: ps) ++ '\x7d' :: rest))).bind (fun kvr =>
                    let r1 := skipWs kvr.2
                    if startsWithChars [','] r1 then
                      (parseMembers f (r1.drop 1)).map (fun p2 => (kvr.1 :: p2.1, p2.2))
                    else some ([kvr.1], r1)) := rfl
              rw [hstep, parsePair_dump k v _ hv (by rfl)]
              have hlen2 : (p :: ps).length ≤ f := by
                simp only [List.length_cons] at hlen ⊢
                omega
              have hcl2 : cleanMeta (p :: ps) := fun kv2 hkv2 => hcl kv2 (by simp [hkv2])
              have hmain := ih f rest (by simp) hlen2 hcl2
              have hred : (some (((k : String), v), ',' ::
                    (dumpPairsAux (p :: ps) ++ '\x7d' :: rest))).bind (fun kvr =>
                  let r1 := skipWs kvr.2
                  if startsWithChars [','] r1 then
                    (parseMembers f (r1.drop 1)).map (fun p2 => (kvr.1 :: p2.1, p2.2))
                  else some ([kvr.1], r1))
                = (parseMembers f (dumpPairsAux (p :: ps) ++ '\x7d' :: rest)).map
                    (fun p2 => (((k : String), v) :: p2.1, p2.2)) := rfl
              rw [hred, hmain]
              rfl

lemma insertKey_of_not_mem (d : Obj) (k : String) (v : JVal)
    (h : ∀ kv ∈ d, kv.1 ≠ k) : insertKey d k v = d ++ [(k, v)] := by
  induction d with
  | nil => rfl
  | cons kv2 rest ih =>
      obtain ⟨k2, v2⟩ := kv2
      have hne : k2 ≠ k := h (k2, v2) (by simp)
      simp only [insertKey, if_neg hne, List.cons_append]
      rw [ih (fun kv hkv => h kv (by simp [hkv]))]

lemma pairsToDict_go (ps : List (String × JVal)) :
    ∀ acc : Obj, (ps.map Prod.fst).Nodup →
      (∀ kv ∈ acc, ∀ kv2 ∈ ps, kv.1 ≠ kv2.1) →
      ps.foldl (fun d kv => insertKey d kv.1 kv.2) acc = acc ++ ps := by
  induction ps with
  | nil => intro acc _ _; simp
  | cons kv ps ih =>
      intro acc hnd hdisj
      simp only [List.foldl_cons]
      rw [insertKey_of_not_mem acc kv.1 kv.2 (fun kv2 hkv2 => hdisj kv2 hkv2 kv (by simp))]
      have hnd2 : (ps.map Prod.fst).Nodup := by
        simp only [List.map_cons, List.nodup_cons] at hnd
        exact hnd.2
      have hdisj2 : ∀ kv2 ∈ acc ++ [kv], ∀ kv3 ∈ ps, kv2.1 ≠ kv3.1 := by
        intro kv2 hkv2 kv3 hkv3
        rcases List.mem_append.mp hkv2 with h2 | h2
        · exact hdisj kv2 h2 kv3 (by simp [hkv3])
        · simp only [List.mem_singleton] at h2
          subst h2
          simp only [List.map_cons, List.nodup_cons] at hnd
          intro heq
          exact hnd.1 (heq ▸ List.mem_map_of_mem Prod.fst hkv3)
      rw [ih (acc ++ [kv]) hnd2 hdisj2]
      simp

lemma pairsToDict_self (ps : List (String × JVal)) (hnd : (ps.map Prod.fst).Nodup) :
    pairsToDict ps = ps := by
  have := pairsToDict_go ps [] hnd (by simp)
  simpa [pairsToDict] using this

lemma jsonParseObj_dump (m : Obj) (hcl : cleanMeta m) (hnd : (m.map Prod.fst).Nodup) :
    jsonParseObj (dumpObj m) = some m := by
  cases m with
  | nil => rfl
  | cons kv m2 =>
      obtain ⟨Y, hY⟩ := dumpPairsAux_cons_shape (kv :: m2) (by simp)
      have h1 : jsonParseObj (dumpObj (kv :: m2)) =
          (parseObjBody (dumpPairsAux (kv :: m2) ++ ['\x7d'])).bind
            (fun p => if (skipWs p.2).isEmpty then some p.1 else none) := rfl
      rw [h1]
      have hX : dumpPairsAux (kv :: m2) ++ ['\x7d'] = '"' :: (Y ++ ['\x7d']) := by
        rw [hY]; rfl
      rw [hX]
      have h2 : parseObjBody ('"' :: (Y ++ ['\x7d'])) =
          (parseMembers ((Y ++ ['\x7d']).length + 1 + 1) ('"' :: (Y ++ ['\x7d']))).bind (fun p =>
            let r1 := skipWs p.2
            if startsWithChars ['\x7d'] r1 then some (pairsToDict p.1, r1.drop 1)
            else none) := rfl
      rw [h2]
      have hfuel : (kv :: m2).length ≤ (Y ++ ['\x7d']).length + 1 + 1 := by
        have hle := dumpPairsAux_length_ge (kv :: m2)
        rw [hY] at hle
        simp only [List.length_cons, List.length_append] at hle ⊢
        omega
      rw [← hX, parseMembers_dump (kv :: m2) _ [] (by simp) hfuel hcl]
      have h3 : ((some (((kv :: m2) : Obj), ['\x7d'])).bind (fun p =>
            let r1 := skipWs p.2
            if startsWithChars ['\x7d'] r1 then some (pairsToDict p.1, r1.drop 1)
            else none)).bind
            (fun p => if (skipWs p.2).isEmpty then some p.1 else none)
          = some (pairsToDict (kv :: m2)) := rfl
      rw [h3, pairsToDict_self _ hnd]

lemma mem_keys_insertKey {d : Obj} {k k3 : String} {v : JVal}
    (h : k3 ∈ (insertKey d k v).map Prod.fst) : k3 ∈ d.map Prod.fst ∨ k3 = k := by
  induction d with
  | nil =>
      simp only [insertKey, List.map_cons, List.map_nil, List.mem_singleton] at h
      exact Or.inr h
  | cons kv rest ih =>
      obtain ⟨k2, v2⟩ := kv
      by_cases he : k2 = k
      · simp only [insertKey, if_pos he, List.map_cons, List.mem_cons] at h
        rcases h with h | h
        · exact Or.inl (by simp [h])
        · exact Or.inl (by simp [h])
      · simp only [insertKey, if_neg he, List.map_cons, List.mem_cons] at h
        rcases h with h | h
        · exact Or.inl (by simp [h])
        · rcases ih h with h2 | h2
          · exact Or.inl (by simp [h2])
          · exact Or.inr h2

lemma nodup_keys_insertKey {d : Obj} (k : String) (v : JVal)
    (h : (d.map Prod.fst).Nodup) : ((insertKey d k v).map Prod.fst).Nodup := by
  induction d with
  | nil => simp [insertKey]
  | cons kv rest ih =>
      obtain ⟨k2, v2⟩ := kv
      simp only [List.map_cons, List.nodup_cons] at h
      by_cases he : k2 = k
      · simp only [insertKey, if_pos he, List.map_cons, List.nodup_cons]
        exact ⟨h.1, h.2⟩
      · simp only [insertKey, if_neg he, List.map_cons, List.nodup_cons]
        refine ⟨?_, ih h.2⟩
        intro hmem
        rcases mem_keys_insertKey hmem with h2 | h2
        · exact h.1 h2
        · exact he h2

lemma nodup_keys_pairsToDict (ps : List (String × JVal)) :
    ((pairsToDict ps).map Prod.fst).Nodup := by
  suffices hgen : ∀ acc : Obj, (acc.map Prod.fst).Nodup →
      ((ps.foldl (fun d kv => insertKey d kv.1 kv.2) acc).map Prod.fst).Nodup by
    exact hgen [] (by simp)
  induction ps with
  | nil => intro acc h; simpa using h
  | cons kv ps ih => intro acc h; exact ih _ (nodup_keys_insertKey _ _ h)

lemma jsonParseObj_nodup {cs : List Char} {m : Obj} (h : jsonParseObj cs = some m) :
    (m.map Prod.fst).Nodup := by
  have h1 : (if startsWithChars ['\x7b'] (skipWs cs) then
      (parseObjBody ((skipWs cs).drop 1)).bind
        (fun p => if (skipWs p.2).isEmpty then some p.1 else none)
    else none) = some m := h
  split at h1
  · rcases hpo : parseObjBody ((skipWs cs).drop 1) with _ | p
    · rw [hpo] at h1; exact absurd h1 (by simp)
    · rw [hpo] at h1
      rw [show (some p).bind (fun p => if (skipWs p.2).isEmpty then some p.1 else none) =
          (if (skipWs p.2).isEmpty then some p.1 else none) from rfl] at h1
      split at h1
      · have hm : p.1 = m := by injection h1
        subst hm
        have h2 : (if startsWithChars ['\x7d'] (skipWs ((skipWs cs).drop 1)) then
            some (([] : Obj), (skipWs ((skipWs cs).drop 1)).drop 1)
          else
            (parseMembers ((skipWs ((skipWs cs).drop 1)).length + 1)
                (skipWs ((skipWs cs).drop 1))).bind (fun q =>
              if startsWithChars ['\x7d'] (skipWs q.2) then
                some (pairsToDict q.1, (skipWs q.2).drop 1)
              else none)) = some p := hpo
        split at h2
        · have h3 : ([] : Obj) = p.1 := by
            injection h2 with h4
            rw [← h4]
          rw [← h3]
          simp
        · rcases hmem : parseMembers ((skipWs ((skipWs cs).drop 1)).length + 1)
              (skipWs ((skipWs cs).drop 1)) with _ | q
          · rw [hmem] at h2; exact absurd h2 (by simp)
          · rw [hmem] at h2
            rw [show (some q).bind (fun q =>
                if startsWithChars ['\x7d'] (skipWs q.2) then
                  some (pairsToDict q.1, (skipWs q.2).drop 1)
                else none) =
                (if startsWithChars ['\x7d'] (skipWs q.2) then
                  some (pairsToDict q.1, (skipWs q.2).drop 1)
                else none) from rfl] at h2
            split at h2
            · have h3 : pairsToDict q.1 = p.1 := by
                injection h2 with h4
                rw [← h4]
              rw [← h3]
              exact nodup_keys_pairsToDict q.1
            · exact absurd h2 (by simp)
      · exact absurd h1 (by simp)
  · exact absurd h1 (by simp)

lemma mem_popKey {d : Obj} {k : String} {kv : String × JVal}
    (h : kv ∈ popKey d k) : kv ∈ d := by
  induction d with
  | nil => simpa [popKey] using h
  | cons kv2 rest ih =>
      obtain ⟨k2, v2⟩ := kv2
      by_cases he : k2 = k
      · simp only [popKey, if_pos he] at h
        exact List.mem_cons_of_mem _ h
      · simp only [popKey, if_neg he, List.mem_cons] at h
        rcases h with h | h
        · simp [h]
        · exact List.mem_cons_of_mem _ (ih h)

lemma mem_keys_popKey {d : Obj} {k k3 : String}
    (h : k3 ∈ (popKey d k).map Prod.fst) : k3 ∈ d.map Prod.fst := by
  rcases List.mem_map.mp h with ⟨kv, hkv, hfst⟩
  exact hfst ▸ List.mem_map_of_mem Prod.fst (mem_popKey hkv)

lemma nodup_keys_popKey {d : Obj} (k : String)
    (h : (d.map Prod.fst).Nodup) : ((popKey d k).map Prod.fst).Nodup := by
  induction d with
  | nil => simpa [popKey] using h
  | cons kv2 rest ih =>
      obtain ⟨k2, v2⟩ := kv2
      simp only [List.map_cons, List.nodup_cons] at h
      by_cases he : k2 = k
      · simp only [popKey, if_pos he]
        exact h.2
      · simp only [popKey, if_neg he, List.map_cons, List.nodup_cons]
        exact ⟨fun hmem => h.1 (mem_keys_popKey hmem), ih h.2⟩

lemma nodup_keys_applyUpdates (u : Obj) :
    ∀ meta : Obj, (meta.map Prod.fst).Nodup →
      ((applyUpdates meta u).map Prod.fst).Nodup := by
  induction u with
  | nil => intro meta h; simpa [applyUpdates] using h
  | cons kv u2 ih =>
      intro meta h
      have hstep : applyUpdates meta (kv :: u2) =
          applyUpdates (if kv.2 = .null then popKey meta kv.1
            else insertKey meta kv.1 kv.2) u2 := rfl
      rw [hstep]
      apply ih
      split
      · exact nodup_keys_popKey _ h
      · exact nodup_keys_insertKey _ _ h

lemma mem_insertKey {d : Obj} {k : String} {v : JVal} {kv : String × JVal}
    (h : kv ∈ insertKey d k v) : kv ∈ d ∨ kv = (k, v) := by
  induction d with
  | nil => simpa [insertKey] using h
  | cons kv2 rest ih =>
      obtain ⟨k2, v2⟩ := kv2
      by_cases he : k2 = k
      · simp only [insertKey, if_pos he, List.mem_cons] at h
        rcases h with h | h
        · subst he; exact Or.inr (by simp [h])
        · exact Or.inl (List.mem_cons_of_mem _ h)
      · simp only [insertKey, if_neg he, List.mem_cons] at h
        rcases h with h | h
        · exact Or.inl (by simp [h])
        · rcases ih h with h2 | h2
          · exact Or.inl (List.mem_cons_of_mem _ h2)
          · exact Or.inr h2

lemma cleanMeta_applyUpdates (u : Obj) :
    ∀ meta : Obj, cleanMeta meta → cleanMeta u →
      cleanMeta (applyUpdates meta u) := by
  induction u with
  | nil => intro meta h _; simpa [applyUpdates] using h
  | cons kv u2 ih =>
      intro meta h hu
      have hstep : applyUpdates meta (kv :: u2) =
          applyUpdates (if kv.2 = .null then popKey meta kv.1
            else insertKey meta kv.1 kv.2) u2 := rfl
      rw [hstep]
      apply ih _ _ (fun kv2 hkv2 => hu kv2 (by simp [hkv2]))
      split
      · exact fun kv2 hkv2 => h kv2 (mem_popKey hkv2)
      · intro kv2 hkv2
        rcases mem_insertKey hkv2 with h2 | h2
        · exact h kv2 h2
        · rw [h2]
          exact hu kv (by simp)

lemma parse_meta_falsy (notes : Option String) (h : strFalsy notes = true) :
    parse_meta notes = [] := by
  cases notes with
  | none => rfl
  | some s =>
      simp only [strFalsy] at h
      simp [parse_meta, h]

lemma parse_meta_of_payload (s : String) (payload : List Char) (m0 : Obj)
    (hdata : s.data = META_PREFIX.data ++ payload)
    (hp : jsonParseObj payload = some m0) :
    parse_meta (some s) = m0 := by
  have hne : s.data.isEmpty = false := by
    rw [hdata]; rfl
  have hsw : startsWithChars META_PREFIX.data s.data = true := by
    rw [hdata]; exact startsWithChars_prefix _ _
  have hdrop : s.data.drop META_PREFIX.data.length = payload := by
    rw [hdata]; exact List.drop_left _ _
  simp only [parse_meta, hne, hsw, if_pos, if_false, Bool.false_eq_true]
  rw [hdrop, hp]

lemma parse_meta_of_dump (m : Obj) (hcl : cleanMeta m) (hnd : (m.map Prod.fst).Nodup) :
    parse_meta (some (String.mk (META_PREFIX.data ++ dumpObj m))) = m :=
  parse_meta_of_payload _ (dumpObj m) m rfl (jsonParseObj_dump m hcl hnd)

lemma isEmpty_false_of_ne_nil {α : Type} {l : List α} (h : l ≠ []) :
    l.isEmpty = false := by
  cases hu : l.isEmpty
  · rfl
  · exact absurd (List.isEmpty_iff.mp hu) h

/-- The freshly seeded metadata object `{ver: 1}`. -/
def seedMeta : Obj := [(("ver" : String), JVal.int 1)]

lemma cleanMeta_seedMeta : cleanMeta seedMeta := by
  intro kv hkv
  simp only [seedMeta, List.mem_singleton] at hkv
  rw [hkv]
  trivial

lemma apply_meta_updates_falsy (notes : Option String) (updates : Obj)
    (hf : strFalsy notes = true) (hne : updates ≠ []) :
    apply_meta_updates notes updates =
      some (String.mk (META_PREFIX.data ++ dumpObj (applyUpdates seedMeta updates))) := by
  have h0 : updates.isEmpty = false := isEmpty_false_of_ne_nil hne
  simp only [apply_meta_updates, h0, Bool.false_eq_true, if_false,
    parse_meta_falsy notes hf, hf, List.isEmpty_nil, Bool.and_self, if_true, seedMeta]
  rfl

lemma apply_meta_updates_meta (s : String) (payload : List Char) (m0 : Obj) (updates : Obj)
    (hdata : s.data = META_PREFIX.data ++ payload)
    (hp : jsonParseObj payload = some m0) (hm0 : m0 ≠ []) (hne : updates ≠ []) :
    apply_meta_updates (some s) updates =
      some (String.mk (META_PREFIX.data ++ dumpObj (applyUpdates m0 updates))) := by
  have h0 : updates.isEmpty = false := isEmpty_false_of_ne_nil hne
  have h1 : m0.isEmpty = false := isEmpty_false_of_ne_nil hm0
  simp only [apply_meta_updates, h0, Bool.false_eq_true, if_false,
    parse_meta_of_payload s payload m0 hdata hp, h1, Bool.false_and, if_true]

/-- C3 (amended): decoding `encode(notes, updates)` (for non-empty
`updates` within the modelled JSON fragment) yields: for empty/missing
notes, the seeded `{ver: 1}` object merged with `updates`; for notes
carrying the sentinel followed by a parseable, NONEMPTY JSON object, the
prior decoded metadata merged with `updates` (null values remove keys,
others overwrite); for every other non-empty notes value — foreign
text, a sentinel with an unparseable payload, or a sentinel with an
empty object — `encode` returns `notes` unchanged. -/
theorem c3_meta_codec_roundtrip (notes : Option String) (updates : Obj)
    (hcl : cleanMeta updates) :
    (strFalsy notes = true → updates ≠ [] →
      parse_meta (apply_meta_updates notes updates) = applyUpdates seedMeta updates) ∧
    (∀ (s : String) (payload : List Char) (m0 : Obj),
      notes = some s → s.data = META_PREFIX.data ++ payload →
      jsonParseObj payload = some m0 → m0 ≠ [] → cleanMeta m0 → updates ≠ [] →
      parse_meta (apply_meta_updates notes updates) = applyUpdates m0 updates) ∧
    (∀ s : String, notes = some s → s.data ≠ [] → parse_meta notes = [] →
      apply_meta_updates notes updates = notes) := by
  refine ⟨?part1, ?part2, ?part3⟩
  case part1 =>
    intro hf hne
    rw [apply_meta_updates_falsy notes updates hf hne]
    exact parse_meta_of_dump _
      (cleanMeta_applyUpdates updates seedMeta cleanMeta_seedMeta hcl)
      (nodup_keys_applyUpdates updates seedMeta (by simp [seedMeta]))
  case part2 =>
    intro s payload m0 hs hdata hp hm0ne hm0cl hne
    subst hs
    rw [apply_meta_updates_meta s payload m0 updates hdata hp hm0ne hne]
    exact parse_meta_of_dump _
      (cleanMeta_applyUpdates updates m0 hm0cl hcl)
      (nodup_keys_applyUpdates updates m0 (jsonParseObj_nodup hp))
  case part3 =>
    intro s hs hne hpm
    subst hs
    by_cases hu : updates.isEmpty
    · simp [apply_meta_updates, hu]
    · have hsf : strFalsy (some s) = false := by
        simp only [strFalsy]
        exact isEmpty_false_of_ne_nil hne
      simp only [apply_meta_updates, hu, Bool.false_eq_true, if_false, hpm, hsf,
        Bool.and_false, List.isEmpty_nil, if_true]

/-- C3 fails as stated: for `notes = "[alice-meta]"` (non-empty, carries
the sentinel, but the payload after the sentinel is not parseable JSON)
and updates `{a: 1}`, `encode` returns the notes unchanged, so the
decode of the result is empty rather than the prior metadata merged
with the updates. -/
theorem c3_counterexample :
    parse_meta (apply_meta_updates (some ("[alice-meta]" : String))
        [(("a" : String), JVal.int 1)]) = [] ∧
    applyUpdates (parse_meta (some ("[alice-meta]" : String)))
        [(("a" : String), JVal.int 1)] = [(("a" : String), JVal.int 1)] ∧
    ([] : Obj) ≠ [(("a" : String), JVal.int 1)] := by
  exact ⟨by decide, by decide, by decide⟩

/-- C4 fails as stated: the code's equality test is Python `isclose`,
which accepts values within the relative OR the absolute tolerance
(`max` combination).  At `a = 10`, `b = 10.000005` the difference
`5e-6` exceeds the absolute tolerance `1e-6` (so the values are NOT
within both tolerances), yet the code treats them as equal. -/
theorem c4_counterexample :
    _different (.num 10) (.num (2000001 / 200000)) = false ∧
    ¬ withinBothTol 10 (2000001 / 200000) := by
  constructor
  · simp only [_different, toNumQ, isclose, qabs, qmax, tol]
    norm_num
  · simp only [withinBothTol, qabs, qmax, tol]
    norm_num

/-- C4 (amended): the unchanged test treats two numerics as equal
exactly when they are within the 1e-6 relative OR the 1e-6 absolute
tolerance (Python `isclose`: `|a-b| <= max(1e-6 * max(|a|,|b|), 1e-6)`);
two nulls are equal; a null never equals a number; strings compare by
exact equality; and `is_different(10.0, 10.0000001)` is false while
`is_different(10.0, 10.1)` is true. -/
theorem c4_tolerance_rule :
    (∀ a b : ℚ, _different (.num a) (.num b) = false ↔
      qabs (a - b) ≤ qmax (tol * qmax (qabs a) (qabs b)) tol) ∧
    _different .null .null = false ∧
    (∀ q : ℚ, _different .null (.num q) = true) ∧
    (∀ s t : String, _different (.str s) (.str t) = decide (s ≠ t)) ∧
    _different (.num 10) (.num (100000001 / 10000000)) = false ∧
    _different (.num 10) (.num (101 / 10)) = true := by
  refine ⟨?_, rfl, ?_, ?_, ?_, ?_⟩
  · intro a b
    have h1 : _different (.num a) (.num b) = ! isclose a b := by
      unfold _different
      rw [if_neg (by rintro ⟨h, -⟩; cases h)]
      rfl
    rw [h1]
    simp [isclose]
  · intro q
    unfold _different
    rw [if_neg (by rintro ⟨-, h⟩; cases h)]
    simp [toNumQ]
  · intro s t
    unfold _different
    rw [if_neg (by rintro ⟨h, -⟩; cases h)]
    show decide (JVal.str s ≠ JVal.str t) = decide (s ≠ t)
    by_cases hst : s = t
    · subst hst; simp
    · rw [decide_eq_true (show JVal.str s ≠ JVal.str t from fun h => hst (by injection h)),
        decide_eq_true hst]
  · simp only [_different, toNumQ, isclose, qabs, qmax, tol]
    norm_num
  · simp only [_different, toNumQ, isclose, qabs, qmax, tol]
    norm_num
    exact Or.inl (by intro h; cases h)

/-!
Model of `src/app/services/nightscout.py`'s `update_treatment` (lines
120–201).  Remote I/O is modelled by an `Env` carrying the HTTP response
each call site would receive; the function returns its outcome together
with the ordered trace of remote calls it issued.  Transport-level
failures (timeouts, connection errors) are outside the model: every
issued call yields a status/body response.  `httpx`'s
`raise_for_status` raises for every non-2xx status (including 1xx/3xx),
and `response.json()` raises a JSON decode error on an empty or
unparseable body; both behaviors are modelled. -/

/-- An HTTP response as the updater observes it. -/
structure Resp where
  status : Nat
  body : String
  contentType : String := ""
deriving DecidableEq

/-- The remote store's responses for each call site of one
`update_treatment` run. -/
structure Env where
  putResp : Resp
  deleteResp : Resp
  insertResp : Resp
  restoreResp : Resp
deriving DecidableEq

/-- One remote call, with its payload, as recorded in the trace. -/
inductive Call where
  | put : JVal → Obj → Call
  | delete : JVal → Call
  | post : List Obj → Call
  | fetchById : String → Call
  | fetchByCid : String → Call
deriving DecidableEq

/-- The updater's outcome: a returned body, or the exception that
propagates (tagged by the call it originated from). -/
inductive NsOutcome where
  | ok : JTop → NsOutcome
  | putFail : Nat → String → NsOutcome
  | deleteFail : Nat → String → NsOutcome
  | insertFail : Nat → String → NsOutcome
  | jsonFail : NsOutcome
deriving DecidableEq

/-- `httpx` success statuses (raise_for_status passes exactly on 2xx). -/
def is2xx (s : Nat) : Bool := 200 ≤ s ∧ s ≤ 299

/-- The identifier field stripped before recreate / restore inserts. -/
def idKey : String := "_id"

/-- Key and value of the synthetic `{status: ok}` body. -/
def statusKey : String := "status"

/-- The literal `ok`. -/
def okStr : String := "ok"

/-- Python whitespace stripped by `str.strip()` (ASCII fragment). -/
def isPySpace (c : Char) : Bool :=
  c = ' ' ∨ c = '\t' ∨ c = '\n' ∨ c = '\r' ∨ c = '\x0b' ∨ c = '\x0c'

/-- Model of Python `str.strip()`. -/
def pyStripChars (cs : List Char) : List Char :=
  ((cs.dropWhile isPySpace).reverse.dropWhile isPySpace).reverse

/-- Model of Python's substring test (`needle in hay`). -/
def isSubstringOf (needle : List Char) : List Char → Bool
  | [] => needle.isEmpty
  | c :: rest => startsWithChars needle (c :: rest) || isSubstringOf needle rest

/-- Normalization of the recreate-insert success response (lines
193–199): empty body becomes `{status: ok}`; a JSON content type is
parsed (an unparseable body raises); otherwise the trimmed text (or
`ok`) is wrapped as `{status: <text>}`. -/
def nsInsertSuccessBody (r : Resp) : NsOutcome :=
  if r.body.data.isEmpty then .ok (.obj [(statusKey, JVal.str okStr)])
  else if isSubstringOf ("application/json" : String).data r.contentType.data then
    match jsonParseTop r.body.data with
    | some v => .ok v
    | none => .jsonFail
  else
    .ok (.obj [(statusKey, JVal.str
      (let t := pyStripChars r.body.data
       if t.isEmpty then okStr else String.mk t))])

/-- Embedding of `update_treatment` from
`src/app/services/nightscout.py` (lines 120–201).  The restore response
(`env.restoreResp`) is intentionally never consulted: the code swallows
every restore failure and re-raises the original recreate error, so the
outcome is independent of it; only the restore call's issuance and
payload are recorded. -/
def ns_update_treatment (tid : JVal) (patch : Obj) (existing : Option Obj) (env : Env) :
    NsOutcome × List Call :=
  let r := env.putResp
  if is2xx r.status then
    match jsonParseTop r.body.data with
    | some v => (.ok v, [Call.put tid patch])
    | none => (.jsonFail, [Call.put tid patch])
  else
    match existing with
    | some ex =>
        if r.status = 404 then
          let d := env.deleteResp
          if d.status = 200 ∨ d.status = 404 ∨ is2xx d.status then
            let fallbackDoc := dictUpdate ex patch
            let insertDoc := popKey fallbackDoc idKey
            let f := env.insertResp
            if is2xx f.status then
              (nsInsertSuccessBody f,
                [Call.put tid patch, Call.delete tid, Call.post [insertDoc]])
            else
              (.insertFail f.status f.body,
                [Call.put tid patch, Call.delete tid, Call.post [insertDoc],
                 Call.post [popKey ex idKey]])
          else
            (.deleteFail d.status d.body, [Call.put tid patch, Call.delete tid])
        else (.putFail r.status r.body, [Call.put tid patch])
    | none => (.putFail r.status r.body, [Call.put tid patch])

/-- C1: in the not-found → delete → failed-recreate sequence, the
updater issues a best-effort restore whose payload is the original
`existing` document with only its identifier stripped, and the outcome
is the original recreate-insert error — for EVERY restore response
(`env.restoreResp` is universally quantified and absent from the
conclusion), so a failing restore is swallowed and never replaces the
propagated error. -/
theorem c1_restore_preserves_original_error (tid : JVal) (patch : Obj) (ex : Obj) (env : Env)
    (hput : env.putResp.status = 404)
    (hdel : env.deleteResp.status = 200 ∨ env.deleteResp.status = 404 ∨
      is2xx env.deleteResp.status = true)
    (hins : is2xx env.insertResp.status = false) :
    ns_update_treatment tid patch (some ex) env =
      (.insertFail env.insertResp.status env.insertResp.body,
        [Call.put tid patch, Call.delete tid,
         Call.post [popKey (dictUpdate ex patch) idKey],
         Call.post [popKey ex idKey]]) := by
  have hd404 : is2xx 404 = false := by decide
  simp [ns_update_treatment, hput, hd404, hdel, hins]

/-- C2: when the direct apply fails, a 404 status with an `existing`
snapshot transitions to the delete-then-recreate sequence (the trace
begins with PUT then DELETE), while any other failing status — or a 404
without a snapshot — propagates the original error unchanged with no
delete or insert issued. -/
theorem c2_put_failure_dispatch (tid : JVal) (patch : Obj) (env : Env)
    (hfail : is2xx env.putResp.status = false) :
    (∀ ex : Obj, env.putResp.status = 404 →
      (ns_update_treatment tid patch (some ex) env).2.take 2 =
        [Call.put tid patch, Call.delete tid]) ∧
    (∀ existing : Option Obj, env.putResp.status ≠ 404 ∨ existing = none →
      ns_update_treatment tid patch existing env =
        (.putFail env.putResp.status env.putResp.body, [Call.put tid patch])) := by
  constructor
  · intro ex h404
    have hd404 : is2xx 404 = false := by decide
    simp only [ns_update_treatment, h404, hd404, Bool.false_eq_true, if_false, if_true]
    split
    · split <;> rfl
    · rfl
  · intro existing hother
    rcases existing with _ | ex
    · simp only [ns_update_treatment, hfail, Bool.false_eq_true, if_false]
    · rcases hother with hne | hnone
      · simp only [ns_update_treatment, hfail, Bool.false_eq_true, if_false, if_neg hne]
      · exact absurd hnone (by simp)

/-- A concrete environment in which the PUT succeeds with an empty
body. -/
def envEmptyOk : Env :=
  { putResp := { status := 200, body := "" }
    deleteResp := { status := 200, body := "" }
    insertResp := { status := 200, body := "" }
    restoreResp := { status := 200, body := "" } }

/-- C6 fails as stated: a 2xx PUT response with an EMPTY body makes the
code call `response.json()` on nothing, which raises a JSON decode
error; the synthetic `{status: ok}` is never produced on this path (it
exists only for the recreate-insert response). -/
theorem c6_counterexample :
    (ns_update_treatment (.str ("A" : String)) [] none envEmptyOk).1 = .jsonFail ∧
    (ns_update_treatment (.str ("A" : String)) [] none envEmptyOk).1 ≠
      .ok (.obj [(statusKey, JVal.str okStr)]) := by
  exact ⟨rfl, by decide⟩

/-- C6 (amended): on any 2xx direct-apply response the updater
terminates after the single PUT and returns the parsed JSON response
body; an empty body instead raises a JSON decode error (the
`{status: ok}` normalization applies only to the recreate-insert
path). -/
theorem c6_put_success_returns_body (tid : JVal) (patch : Obj) (existing : Option Obj)
    (env : Env) (h2 : is2xx env.putResp.status = true) :
    (∀ v : JTop, jsonParseTop env.putResp.body.data = some v →
      ns_update_treatment tid patch existing env = (.ok v, [Call.put tid patch])) ∧
    (env.putResp.body.data = [] →
      ns_update_treatment tid patch existing env = (.jsonFail, [Call.put tid patch])) := by
  constructor
  · intro v hv
    simp only [ns_update_treatment, h2, if_true, hv]
  · intro hb
    simp only [ns_update_treatment, h2, if_true, hb]
    rfl

/-!
Model of the `PUT /api/treatment` handler in `src/app/main.py` (lines
105–177): record resolution (primary id, then client id), input
validation, the field-diff patch computation, and the dispatch to the
store updater.  The incoming form's numeric fields are modelled as
already-lexed optional rationals (`float(raw)` literal lexing is
Python's, not this repository's; a missing or empty field is `none`).
Signature verification (`verify_init_data`) precedes everything and is
out of scope: the model covers the post-authentication behavior. -/

/-- Python `int(...)` truncation toward zero on a float value. -/
def pyTrunc (q : ℚ) : Int := if 0 ≤ q then ⌊q⌋ else ⌈q⌉

/-- An optional string as the Python value the handler compares/stores. -/
def jOptStr : Option String → JVal
  | none => .null
  | some s => .str s

/-- An optional float as the Python value the handler compares/stores. -/
def jOptNum : Option ℚ → JVal
  | none => .null
  | some q => .num q

/-- An optional int as the Python value the handler compares/stores. -/
def jOptInt : Option Int → JVal
  | none => .null
  | some n => .int n

/-- Record field keys used by the handler. -/
def eventTypeKey : String := "eventType"

/-- The `insulin` field key. -/
def insulinKey : String := "insulin"

/-- The `carbs` field key. -/
def carbsKey : String := "carbs"

/-- The `calories_kcal` field key (first-class and metadata). -/
def caloriesKey : String := "calories_kcal"

/-- The `protein_g` field key (first-class and metadata). -/
def proteinKey : String := "protein_g"

/-- The `meal` field key. -/
def mealKey : String := "meal"

/-- The `photoUrl` field key. -/
def photoUrlKey : String := "photoUrl"

/-- The `notes` field key. -/
def notesKey : String := "notes"

/-- The metadata key mirroring insulin. -/
def insulinMetaKey : String := "insulin_u"

/-- The metadata key mirroring carbs. -/
def carbsMetaKey : String := "carbs_g"

/-- The raw form fields of one update request (post-lexing). -/
structure FormInput where
  treatment_id : String
  cid : Option String
  eventType : Option String
  insulin : Option ℚ
  carbs : Option ℚ
  calories : Option ℚ
  protein : Option ℚ
  meal : Option String
  photoUrl : Option String
deriving DecidableEq

/-- The validated field values. -/
structure ValidForm where
  eventType : Option String
  insulin : Option ℚ
  carbs : Option ℚ
  calories : Option Int
  protein : Option Int
  meal : Option String
  photoUrl : Option String
deriving DecidableEq

/-- Embedding of `_normalize_event_type` (lines 85–94): strip, treat
`none`-insensitive "none" as cleared, and accept only the closed label
set.  Lowercasing is modelled on ASCII via `Char.toLower`. -/
def _normalize_event_type : Option String → Except String (Option String)
  | none => .ok none
  | some s =>
      let t := String.mk (pyStripChars s.data)
      if String.mk (t.data.map Char.toLower) = ("none" : String) then .ok none
      else if t = ("Meal Bolus" : String) ∨ t = ("Carb Correction" : String) ∨
          t = ("Correction Bolus" : String) ∨ t = ("None" : String) then .ok (some t)
      else .error ("Unsupported eventType" : String)

/-- Embedding of `_parse_optional_float` (lines 61–70) on an
already-lexed value: absent stays absent, out-of-range is a 400. -/
def _parse_optional_float (x : Option ℚ) (lo hi : ℚ) (name : String) :
    Except String (Option ℚ) :=
  match x with
  | none => .ok none
  | some q =>
      if lo ≤ q ∧ q ≤ hi then .ok (some q)
      else .error (name ++ (" out of range" : String))

/-- Embedding of `_parse_optional_int` (lines 73–82): `int(float(raw))`
truncates toward zero before the range check. -/
def _parse_optional_int (x : Option ℚ) (lo hi : Int) (name : String) :
    Except String (Option Int) :=
  match x with
  | none => .ok none
  | some q =>
      let v := pyTrunc q
      if lo ≤ v ∧ v ≤ hi then .ok (some v)
      else .error (name ++ (" out of range" : String))

/-- Model of `meal.strip() if meal else None` (and the same for the
photo URL). -/
def pyCleanOptStr : Option String → Option String
  | none => none
  | some s => if s.data.isEmpty then none else some (String.mk (pyStripChars s.data))

/-- The handler's validation phase, in source order (lines 128–134). -/
def validateForm (f : FormInput) : Except String ValidForm :=
  (_normalize_event_type f.eventType).bind (fun et =>
  (_parse_optional_float f.insulin 0 50 insulinKey).bind (fun ins =>
  (_parse_optional_float f.carbs 0 2000 carbsKey).bind (fun cb =>
  (_parse_optional_int f.calories 0 100000 (("calories" : String))).bind (fun cal =>
  (_parse_optional_int f.protein 0 10000 (("protein" : String))).bind (fun pr =>
  Except.ok ⟨et, ins, cb, cal, pr, pyCleanOptStr f.meal, pyCleanOptStr f.photoUrl⟩)))))

/-- The notes value as the codec receives it (`record.get("notes")`;
null/absent → `None`; non-string notes are outside the model). -/
def notesOf : JVal → Option String
  | .str s => some s
  | _ => none

/-- Embedding of the field-diff loop of `update_treatment` (lines
136–170): each differing field enters the patch, extension fields are
mirrored into the metadata updates, and the re-encoded notes join the
patch only when they changed. -/
def computePatch (record : Obj) (v : ValidForm) : Obj :=
  let s0 : Obj × Obj := ([], [])
  let s1 := if _different (pyGet record eventTypeKey) (jOptStr v.eventType)
    then (insertKey s0.1 eventTypeKey (jOptStr v.eventType), s0.2) else s0
  let s2 := if _different (pyGet record insulinKey) (jOptNum v.insulin)
    then (insertKey s1.1 insulinKey (jOptNum v.insulin),
          insertKey s1.2 insulinMetaKey (jOptNum v.insulin)) else s1
  let s3 := if _different (pyGet record carbsKey) (jOptNum v.carbs)
    then (insertKey s2.1 carbsKey (jOptNum v.carbs),
          insertKey s2.2 carbsMetaKey
            (match v.carbs with
             | some q => JVal.int (pyTrunc q)
             | none => JVal.null)) else s2
  let s4 := if _different (pyGet record caloriesKey) (jOptInt v.calories)
    then (insertKey s3.1 caloriesKey (jOptInt v.calories),
          insertKey s3.2 caloriesKey (jOptInt v.calories)) else s3
  let s5 := if _different (pyGet record proteinKey) (jOptInt v.protein)
    then (insertKey s4.1 proteinKey (jOptInt v.protein),
          insertKey s4.2 proteinKey (jOptInt v.protein)) else s4
  let s6 := if _different (pyGet record mealKey) (jOptStr v.meal)
    then (insertKey s5.1 mealKey (jOptStr v.meal),
          insertKey s5.2 mealKey (jOptStr v.meal)) else s5
  let s7 := if _different (pyGet record photoUrlKey) (jOptStr v.photoUrl)
    then (insertKey s6.1 photoUrlKey (jOptStr v.photoUrl),
          insertKey s6.2 photoUrlKey (jOptStr v.photoUrl)) else s6
  let notes0 := notesOf (pyGet record notesKey)
  let notesU := apply_meta_updates notes0 s7.2
  if notesU ≠ notes0 then insertKey s7.1 notesKey (jOptStr notesU) else s7.1

/-- Python truthiness of the optional `cid` form field. -/
def cidTruthy : Option String → Bool
  | none => false
  | some c => ¬ c.data.isEmpty

/-- Embedding of the record-resolution prologue (lines 120–126):
primary-id lookup first; on miss with a truthy client id, the client-id
lookup; a found record's own truthy `_id` replaces the caller-supplied
id.  Returns the resolved record, the (possibly adopted) target id, and
the lookup trace. -/
def resolveRecord (f : FormInput) (byId byCid : Option Obj) :
    Option Obj × JVal × List Call :=
  match byId with
  | some r => (some r, JVal.str f.treatment_id, [Call.fetchById f.treatment_id])
  | none =>
      match f.cid with
      | some c =>
          if c.data.isEmpty then
            (none, JVal.str f.treatment_id, [Call.fetchById f.treatment_id])
          else
            match byCid with
            | some r =>
                (some r,
                 (if pyTruthy (pyGet r idKey) then pyGet r idKey
                  else JVal.str f.treatment_id),
                 [Call.fetchById f.treatment_id, Call.fetchByCid c])
            | none =>
                (none, JVal.str f.treatment_id,
                 [Call.fetchById f.treatment_id, Call.fetchByCid c])
      | none => (none, JVal.str f.treatment_id, [Call.fetchById f.treatment_id])

/-- The handler's observable result. -/
inductive HandlerResult where
  | httpError : Nat → String → HandlerResult
  | ok : Bool → HandlerResult
  | nsError : NsOutcome → HandlerResult
deriving DecidableEq

/-- Embedding of the `PUT /api/treatment` handler (lines 105–177).
Note the call into the store updater passes NO `existing` snapshot
(bare `nightscout.update_treatment(target_id, patch)`), so the
delete/recreate fallback is unreachable from this endpoint. -/
def update_treatment_handler (f : FormInput) (byId byCid : Option Obj) (env : Env) :
    HandlerResult × List Call :=
  match resolveRecord f byId byCid with
  | (none, _, calls) => (.httpError 404 ("Treatment not found" : String), calls)
  | (some r, tidVal, calls) =>
      match validateForm f with
      | .error e => (.httpError 400 e, calls)
      | .ok v =>
          let patch := computePatch r v
          if patch.isEmpty then (.ok false, calls)
          else
            let target := if pyTruthy (pyGet r idKey) then pyGet r idKey else tidVal
            let res := ns_update_treatment target patch none env
            match res.1 with
            | .ok _ => (.ok true, calls ++ res.2)
            | o => (.nsError o, calls ++ res.2)

/-- Remote calls that mutate the store (PUT / DELETE / POST). -/
def isStoreWrite : Call → Bool
  | .put _ _ => true
  | .delete _ => true
  | .post _ => true
  | _ => false

lemma resolveRecord_calls_reads (f : FormInput) (byId byCid : Option Obj) :
    ∀ c ∈ (resolveRecord f byId byCid).2.2, isStoreWrite c = false := by
  rcases byId with _ | r
  · rcases hcid : f.cid with _ | c
    · simp [resolveRecord, hcid, isStoreWrite]
    · by_cases he : c.data.isEmpty
      · simp [resolveRecord, hcid, he, isStoreWrite]
      · rcases byCid with _ | r2 <;>
          simp [resolveRecord, hcid, he, isStoreWrite] <;>
          rintro c2 (rfl | rfl) <;> rfl
  · simp [resolveRecord, isStoreWrite]

/-- C5: when every requested value equals its stored value under the
tolerance rule (`_different` is false on all seven fields), the
computed patch is empty, the handler returns the no-op success
(`updated = false`), and the trace contains no PUT, DELETE, or POST —
only the resolution lookups. -/
theorem c5_no_change_is_noop (f : FormInput) (byId byCid : Option Obj) (env : Env)
    (r : Obj) (tidVal : JVal) (lcalls : List Call) (v : ValidForm)
    (hres : resolveRecord f byId byCid = (some r, tidVal, lcalls))
    (hv : validateForm f = .ok v)
    (hd1 : _different (pyGet r eventTypeKey) (jOptStr v.eventType) = false)
    (hd2 : _different (pyGet r insulinKey) (jOptNum v.insulin) = false)
    (hd3 : _different (pyGet r carbsKey) (jOptNum v.carbs) = false)
    (hd4 : _different (pyGet r caloriesKey) (jOptInt v.calories) = false)
    (hd5 : _different (pyGet r proteinKey) (jOptInt v.protein) = false)
    (hd6 : _different (pyGet r mealKey) (jOptStr v.meal) = false)
    (hd7 : _different (pyGet r photoUrlKey) (jOptStr v.photoUrl) = false) :
    computePatch r v = [] ∧
    update_treatment_handler f byId byCid env = (.ok false, lcalls) ∧
    (∀ c ∈ (update_treatment_handler f byId byCid env).2, isStoreWrite c = false) := by
  have hpatch : computePatch r v = [] := by
    simp only [computePatch, hd1, hd2, hd3, hd4, hd5, hd6, hd7,
      Bool.false_eq_true, if_false]
    simp [apply_meta_updates]
  have hh : update_treatment_handler f byId byCid env = (.ok false, lcalls) := by
    simp only [update_treatment_handler, hres, hv, hpatch, List.isEmpty_nil, if_true]
  refine ⟨hpatch, hh, ?_⟩
  rw [hh]
  intro c hc
  have := resolveRecord_calls_reads f byId byCid
  rw [hres] at this
  exact this c hc

/-- C7: the primary-id lookup is always attempted first (the trace
begins with it); a primary-id hit resolves immediately without the
client-id lookup; on a primary-id miss with a non-empty client id, the
client-id lookup runs and a found record's own (truthy) `_id` is
adopted as the target; and when neither lookup finds a record the
handler fails with 404 and issues no store update. -/
theorem c7_resolution_order (f : FormInput) (byId byCid : Option Obj) (env : Env) :
    ((update_treatment_handler f byId byCid env).2.head? =
      some (Call.fetchById f.treatment_id)) ∧
    (∀ r : Obj, byId = some r →
      resolveRecord f byId byCid =
        (some r, JVal.str f.treatment_id, [Call.fetchById f.treatment_id])) ∧
    (∀ (r : Obj) (c : String), byId = none → f.cid = some c → c.data ≠ [] →
      byCid = some r → pyTruthy (pyGet r idKey) = true →
      resolveRecord f byId byCid =
        (some r, pyGet r idKey,
         [Call.fetchById f.treatment_id, Call.fetchByCid c])) ∧
    (byId = none → (cidTruthy f.cid = false ∨ byCid = none) →
      (update_treatment_handler f byId byCid env).1 =
        .httpError 404 ("Treatment not found" : String) ∧
      (∀ c2 ∈ (update_treatment_handler f byId byCid env).2, isStoreWrite c2 = false)) := by
  have hresolve_head : (resolveRecord f byId byCid).2.2.head? =
      some (Call.fetchById f.treatment_id) := by
    rcases byId with _ | r
    · rcases hcid : f.cid with _ | c
      · simp [resolveRecord, hcid]
      · by_cases he : c.data.isEmpty
        · simp [resolveRecord, hcid, he]
        · rcases byCid with _ | r2 <;> simp [resolveRecord, hcid, he]
    · simp [resolveRecord]
  refine ⟨?head, ?byid, ?bycid, ?nf⟩
  case head =>
    unfold update_treatment_handler
    rcases hr : resolveRecord f byId byCid with ⟨rec, tidVal, calls⟩
    have hcalls : calls.head? = some (Call.fetchById f.treatment_id) := by
      rw [hr] at hresolve_head
      exact hresolve_head
    rcases rec with _ | r
    · simpa using hcalls
    · rcases hv : validateForm f with e | v
      · simpa [hv] using hcalls
      · simp only [hv]
        split
        · simpa using hcalls
        · split <;>
            (rcases calls with _ | ⟨c0, rest⟩
             · simp at hcalls
             · simp at hcalls
               simp [hcalls])
  case byid =>
    intro r hb
    subst hb
    rfl
  case bycid =>
    intro r c hb hc hcne hbc htr
    subst hb
    subst hbc
    simp [resolveRecord, hc, hcne, htr]
  case nf =>
    intro hb hor
    subst hb
    have hnone : (resolveRecord f none byCid).1 = none ∧
        (∀ c2 ∈ (resolveRecord f none byCid).2.2, isStoreWrite c2 = false) := by
      refine ⟨?_, resolveRecord_calls_reads f none byCid⟩
      rcases hcid : f.cid with _ | c
      · simp [resolveRecord, hcid]
      · rcases hor with hfalse | hbc
        · have he : c.data.isEmpty = true := by
            by_contra hno
            rw [hcid] at hfalse
            simp [cidTruthy, hno] at hfalse
          simp [resolveRecord, hcid, he]
        · subst hbc
          by_cases he : c.data.isEmpty <;> simp [resolveRecord, hcid, he]
    rcases hr : resolveRecord f none byCid with ⟨rec, tidVal, calls⟩
    rw [hr] at hnone
    rcases rec with _ | r
    · constructor
      · simp [update_treatment_handler, hr]
      · intro c2 hc2
        simp only [update_treatment_handler, hr] at hc2
        exact hnone.2 c2 hc2
    · exact absurd hnone.1 (by simp)

/-- C10: the public `PUT /api/treatment` endpoint calls the store
updater without an `existing` snapshot, so when the direct apply fails
with 404 the delete/recreate/restore fallback is never entered: the
store's not-found error propagates to the HTTP caller and the only
store call in the trace is the single PUT. -/
theorem c10_endpoint_404_no_fallback (f : FormInput) (byId byCid : Option Obj) (env : Env)
    (r : Obj) (tidVal : JVal) (lcalls : List Call) (v : ValidForm) (patch : Obj)
    (hres : resolveRecord f byId byCid = (some r, tidVal, lcalls))
    (hv : validateForm f = .ok v)
    (hp : computePatch r v = patch)
    (hpne : patch ≠ [])
    (h404 : env.putResp.status = 404) :
    update_treatment_handler f byId byCid env =
      (.nsError (.putFail 404 env.putResp.body),
        lcalls ++ [Call.put (if pyTruthy (pyGet r idKey) then pyGet r idKey else tidVal)
          patch]) := by
  have hd404 : is2xx 404 = false := by decide
  have hne : patch.isEmpty = false := isEmpty_false_of_ne_nil hpne
  have hns : ∀ target : JVal, ns_update_treatment target patch none env =
      (.putFail 404 env.putResp.body, [Call.put target patch]) := by
    intro target
    simp [ns_update_treatment, h404, hd404]
  simp only [update_treatment_handler, hres, hv, hp, hne, Bool.false_eq_true, if_false,
    hns]

/-!
Model of `fetch_treatments_between` from
`src/app/services/nightscout.py` (lines 71-117).  The store is modelled
as a function from the `skip` offset to the page of rows returned for
that offset (the timestamp filter and auth are fixed query parameters
with no bearing on the loop).  The non-list-response break is outside
the model (pages are lists by type). -/

/-- The hard cap on rows fetched per call (line 13). -/
def MAX_NIGHTSCOUT_FETCH : Nat := 5000

/-- The paging loop: fetch at `skip`; stop on an empty page; stop after
appending a short page; otherwise advance `skip` and stop once it
reaches the cap. -/
def fetchAux {α : Type} (pages : Nat → List α) (ps : Nat) (hps : 0 < ps)
    (skip : Nat) (acc : List α) : List α :=
  if (pages skip).isEmpty then acc
  else if (pages skip).length < ps then acc ++ pages skip
  else if MAX_NIGHTSCOUT_FETCH ≤ skip + (pages skip).length then acc ++ pages skip
  else fetchAux pages ps hps (skip + (pages skip).length) (acc ++ pages skip)
termination_by MAX_NIGHTSCOUT_FETCH - skip
decreasing_by
  simp_wf
  rename_i h1 h2 h3
  simp only [not_lt] at h2
  simp only [not_le] at h3
  simp only [MAX_NIGHTSCOUT_FETCH] at h3 ⊢
  omega

/-- Embedding of `fetch_treatments_between`: a non-positive page size
raises a `ValueError`; otherwise the loop runs from `skip = 0`. -/
def fetch_treatments_between {α : Type} (pages : Nat → List α) (ps : Nat) :
    Except String (List α) :=
  if h : 0 < ps then Except.ok (fetchAux pages ps h 0 [])
  else Except.error ("page_size must be positive" : String)

lemma fetchAux_short_stop {α : Type} (pages : Nat → List α) (ps : Nat) (hps : 0 < ps)
    (skip : Nat) (acc : List α) (hshort : (pages skip).length < ps) :
    fetchAux pages ps hps skip acc = acc ++ pages skip := by
  rw [fetchAux.eq_def]
  by_cases he : (pages skip).isEmpty
  · simp only [he, if_true]
    simp only [List.isEmpty_eq_true] at he
    simp [he]
  · simp only [he, Bool.false_eq_true, if_false, hshort, if_true]

lemma fetchAux_full_step {α : Type} (pages : Nat → List α) (ps : Nat) (hps : 0 < ps)
    (skip : Nat) (acc : List α) (hfull : ¬ (pages skip).length < ps)
    (hcap : ¬ MAX_NIGHTSCOUT_FETCH ≤ skip + (pages skip).length) :
    fetchAux pages ps hps skip acc =
      fetchAux pages ps hps (skip + (pages skip).length) (acc ++ pages skip) := by
  rw [fetchAux.eq_def]
  have hne : (pages skip).isEmpty = false := by
    rcases hp : pages skip with _ | ⟨x, xs⟩
    · rw [hp] at hfull
      simp at hfull
      omega
    · rfl
  simp only [hne, Bool.false_eq_true, if_false, hfull, hcap]

lemma fetchAux_full_stop {α : Type} (pages : Nat → List α) (ps : Nat) (hps : 0 < ps)
    (skip : Nat) (acc : List α) (hfull : ¬ (pages skip).length < ps)
    (hcap : MAX_NIGHTSCOUT_FETCH ≤ skip + (pages skip).length) :
    fetchAux pages ps hps skip acc = acc ++ pages skip := by
  rw [fetchAux.eq_def]
  have hne : (pages skip).isEmpty = false := by
    rcases hp : pages skip with _ | ⟨x, xs⟩
    · rw [hp] at hfull
      simp at hfull
      omega
    · rfl
  simp only [hne, Bool.false_eq_true, if_false, hfull, hcap, if_true]

lemma fetchAux_length_bound {α : Type} (pages : Nat → List α) (ps : Nat) (hps : 0 < ps)
    (hchunk : ∀ s, (pages s).length ≤ ps) :
    ∀ (n skip : Nat) (acc : List α), MAX_NIGHTSCOUT_FETCH - skip = n →
      skip < MAX_NIGHTSCOUT_FETCH →
      (fetchAux pages ps hps skip acc).length ≤
        acc.length + (MAX_NIGHTSCOUT_FETCH - skip) + ps - 1 := by
  intro n
  induction n using Nat.strong_induction_on with
  | _ n ih =>
      intro skip acc hn hskip
      by_cases hshort : (pages skip).length < ps
      · rw [fetchAux_short_stop pages ps hps skip acc hshort]
        have := hchunk skip
        simp only [List.length_append]
        omega
      · by_cases hcap : MAX_NIGHTSCOUT_FETCH ≤ skip + (pages skip).length
        · rw [fetchAux_full_stop pages ps hps skip acc hshort hcap]
          have := hchunk skip
          simp only [List.length_append]
          simp only [MAX_NIGHTSCOUT_FETCH] at hskip ⊢
          omega
        · rw [fetchAux_full_step pages ps hps skip acc hshort hcap]
          have hlen : (pages skip).length = ps :=
            le_antisymm (hchunk skip) (by omega)
          have hskip2 : skip + (pages skip).length < MAX_NIGHTSCOUT_FETCH := by omega
          have hrec := ih (MAX_NIGHTSCOUT_FETCH - (skip + (pages skip).length))
            (by simp only [MAX_NIGHTSCOUT_FETCH] at *; omega)
            (skip + (pages skip).length) (acc ++ pages skip) rfl hskip2
          simp only [List.length_append] at hrec ⊢
          simp only [MAX_NIGHTSCOUT_FETCH] at *
          omega

/-- C8 (amended): for every positive page size, the loop stops as soon
as a page comes back shorter than requested (returning what was
accumulated plus that page), and the total number of rows fetched is
bounded by `MAX_NIGHTSCOUT_FETCH + page_size - 1` — the cap is only
checked after appending a full page, so up to `page_size - 1` rows
beyond the 5000 cap can be returned (the exact 5000 bound holds only
when the page size divides 5000, as with the in-repo call sites 200,
500, and the default 1000). -/
theorem c8_paging_cap {α : Type} (pages : Nat → List α) (ps : Nat) (hps : 0 < ps)
    (hchunk : ∀ s, (pages s).length ≤ ps) :
    fetch_treatments_between pages ps = Except.ok (fetchAux pages ps hps 0 []) ∧
    (fetchAux pages ps hps 0 []).length < MAX_NIGHTSCOUT_FETCH + ps ∧
    (∀ (skip : Nat) (acc : List α), (pages skip).length < ps →
      fetchAux pages ps hps skip acc = acc ++ pages skip) := by
  refine ⟨?_, ?_, ?_⟩
  · unfold fetch_treatments_between
    rw [dif_pos hps]
  · have h := fetchAux_length_bound pages ps hps hchunk (MAX_NIGHTSCOUT_FETCH - 0) 0 []
      rfl (by simp [MAX_NIGHTSCOUT_FETCH])
    simp only [List.length_nil, MAX_NIGHTSCOUT_FETCH] at h ⊢
    omega
  · intro skip acc hshort
    exact fetchAux_short_stop pages ps hps skip acc hshort

/-- A store answering every page request with 2501 rows. -/
def cexPages : Nat → List Unit := fun _ => List.replicate 2501 ()

lemma cexPages_length (s : Nat) : (cexPages s).length = 2501 := by
  unfold cexPages
  rw [List.length_replicate]

/-- C8 fails as stated: with page size 2501 and a store holding at
least 5002 rows, the loop appends two full pages (the cap is only
checked after appending), returning 5002 rows — more than
`MAX_NIGHTSCOUT_FETCH = 5000`. -/
theorem c8_counterexample :
    ∃ l : List Unit,
      fetch_treatments_between cexPages 2501 = Except.ok l ∧
      l.length = 5002 ∧ MAX_NIGHTSCOUT_FETCH < l.length := by
  have hps : 0 < 2501 := by norm_num
  have hfull : ∀ s, ¬ (cexPages s).length < 2501 := by
    intro s
    rw [cexPages_length]
    omega
  have hstep :
      fetchAux cexPages 2501 hps 0 [] =
        fetchAux cexPages 2501 hps (0 + (cexPages 0).length) ([] ++ cexPages 0) :=
    fetchAux_full_step cexPages 2501 hps 0 [] (hfull 0)
      (by rw [cexPages_length]; simp [MAX_NIGHTSCOUT_FETCH])
  have hstop :
      fetchAux cexPages 2501 hps (0 + (cexPages 0).length) ([] ++ cexPages 0) =
        ([] ++ cexPages 0) ++ cexPages (0 + (cexPages 0).length) :=
    fetchAux_full_stop cexPages 2501 hps _ _ (hfull _)
      (by rw [cexPages_length, cexPages_length]; simp [MAX_NIGHTSCOUT_FETCH])
  refine ⟨fetchAux cexPages 2501 hps 0 [], ?_, ?_, ?_⟩
  · unfold fetch_treatments_between
    rw [dif_pos hps]
  · rw [hstep, hstop]
    simp only [List.length_append, List.length_nil, cexPages_length]
  · rw [hstep, hstop]
    simp only [List.length_append, List.length_nil, cexPages_length,
      MAX_NIGHTSCOUT_FETCH]
    omega

/-!
Model of the per-day aggregation in `src/scripts/telegram_bot.py`
(`_pick_number` lines 51–63, `_parse_created_at` lines 66–87,
`_record_local_date` lines 90–97, `_aggregate_treatments` lines
100–140).  The `datetime` ISO-8601 lexer is Python's standard library,
not repository code; the model records its verdict on the record's
`created_at`/`createdAt` value as a `CreatedAt` datum: `missing` (no
value), `unparseable` (the lexer rejects it), or `parsed` with the UTC
timestamp in minutes since an epoch (sub-minute precision does not
affect local-day bucketing at the minute-granular `utcOffset`).  A
local calendar day is the floor of the offset-adjusted timestamp over
1440 minutes. -/

/-- The parse verdict on a record's creation timestamp. -/
inductive CreatedAt where
  | missing : CreatedAt
  | unparseable : String → CreatedAt
  | parsed : Int → CreatedAt
deriving DecidableEq

/-- A treatment record as the aggregator reads it (absent fields are
`null`, matching `dict.get`). -/
structure TRecord where
  created : CreatedAt
  utcOffset : JVal
  insulin : JVal
  carbs : JVal
  calories : JVal
  notes : Option String
deriving DecidableEq

/-- Embedding of `_parse_created_at`: the timestamp when the lexer
succeeds, `None` otherwise. -/
def _parse_created_at (r : TRecord) : Option Int :=
  match r.created with
  | .parsed t => some t
  | _ => none

/-- Embedding of `_record_local_date`: add the record's own numeric,
nonzero `utcOffset` (minutes, truncated by `int(...)`; Python `bool` is
numeric with `int(True) = 1`) to the UTC time, then take the date. -/
def _record_local_date (r : TRecord) : Option Int :=
  match _parse_created_at r with
  | none => none
  | some t =>
      let t2 :=
        match r.utcOffset with
        | .int n => if n ≠ 0 then t + n else t
        | .num q => if q ≠ 0 then t + pyTrunc q else t
        | .bool b => if b then t + 1 else t
        | _ => t
      some (Int.fdiv t2 1440)

/-- Model of `float(raw)` on a stripped string: optional sign, digits,
optional fraction.  Exponents, `inf`/`nan`, and underscore separators
are outside the modelled fragment (none is produced by the
repository's own writes). -/
def pyFloatUnsigned (cs : List Char) : Option ℚ :=
  let p := spanDigits cs
  match p.2 with
  | [] => if p.1.isEmpty then none else some ((digitsToNat p.1 0 : ℚ))
  | '.' :: rest2 =>
      let q := spanDigits rest2
      if q.2.isEmpty then
        if p.1.isEmpty && q.1.isEmpty then none
        else some ((digitsToNat p.1 0 : ℚ) +
          (digitsToNat q.1 0 : ℚ) / ((10 : ℚ) ^ q.1.length))
      else none
  | _ => none

/-- Signed `float(raw)` lexing. -/
def pyFloat (cs : List Char) : Option ℚ :=
  match cs with
  | '-' :: rest => (pyFloatUnsigned rest).map Neg.neg
  | '+' :: rest => pyFloatUnsigned rest
  | _ => pyFloatUnsigned cs

/-- Embedding of `_pick_number`: the first argument that is non-`None`,
non-blank, and convertible by `float(...)`. -/
def pickNumber : List JVal → Option ℚ
  | [] => none
  | v :: rest =>
      match v with
      | .null => pickNumber rest
      | .str s =>
          let t := pyStripChars s.data
          if t.isEmpty then pickNumber rest
          else
            match pyFloat t with
            | some q => some q
            | none => pickNumber rest
      | .bool b => some (if b then 1 else 0)
      | .int n => some ((n : ℚ))
      | .num q => some q

/-- One day bucket's totals. -/
structure DayStats where
  entries : Nat
  insulin : ℚ
  carbs : ℚ
  calories : ℚ
deriving DecidableEq

/-- The empty bucket (also the `defaultdict` default). -/
def DayStats.zero : DayStats := ⟨0, 0, 0, 0⟩

/-- Pointwise bucket addition. -/
def DayStats.add (a b : DayStats) : DayStats :=
  ⟨a.entries + b.entries, a.insulin + b.insulin, a.carbs + b.carbs,
   a.calories + b.calories⟩

/-- One date-resolvable record's contribution to its day bucket: one
entry plus its picked insulin / carbs / calories (a `None` pick
contributes zero, which coincides with the code's skipped addition). -/
def dayContrib (r : TRecord) : DayStats :=
  ⟨1,
   (pickNumber [r.insulin, pyGet (parse_meta r.notes) insulinMetaKey]).getD 0,
   (pickNumber [r.carbs, pyGet (parse_meta r.notes) carbsMetaKey]).getD 0,
   (pickNumber [r.calories, pyGet (parse_meta r.notes) caloriesKey]).getD 0⟩

/-- The aggregator's running state: overall totals plus the per-day
map (`defaultdict` modelled as a total function defaulting to zero; a
bucket exists in the Python dict exactly when some record touched it,
and untouched buckets read as zero on both sides). -/
structure AggTotals where
  entries : Nat
  insulin : ℚ
  carbs : ℚ
  calories : ℚ
  daily : Int → DayStats

/-- One loop iteration of `_aggregate_treatments`: every record counts
toward `entries`; a record with no local date contributes nothing else;
otherwise its contribution is added to the overall numeric totals and
to its day's bucket. -/
def aggStep (acc : AggTotals) (r : TRecord) : AggTotals :=
  match _record_local_date r with
  | none => ⟨acc.entries + 1, acc.insulin, acc.carbs, acc.calories, acc.daily⟩
  | some d =>
      ⟨acc.entries + 1,
       acc.insulin + (dayContrib r).insulin,
       acc.carbs + (dayContrib r).carbs,
       acc.calories + (dayContrib r).calories,
       fun x => if x = d then (acc.daily x).add (dayContrib r) else acc.daily x⟩

/-- The aggregation loop. -/
def aggGo : AggTotals → List TRecord → AggTotals
  | acc, [] => acc
  | acc, r :: rs => aggGo (aggStep acc r) rs

/-- Embedding of `_aggregate_treatments`. -/
def _aggregate_treatments (rs : List TRecord) : AggTotals :=
  aggGo ⟨0, 0, 0, 0, fun _ => DayStats.zero⟩ rs

/-- Bucket sum of a list of contributions. -/
def sumStats : List DayStats → DayStats
  | [] => DayStats.zero
  | s :: rest => s.add (sumStats rest)

lemma DayStats.add_zero (s : DayStats) : s.add DayStats.zero = s := by
  cases s
  simp [DayStats.add, DayStats.zero]

lemma DayStats.add_assoc (a b c : DayStats) : (a.add b).add c = a.add (b.add c) := by
  cases a; cases b; cases c
  simp [DayStats.add]
  refine ⟨by omega, by ring, by ring, by ring⟩

lemma aggGo_entries (rs : List TRecord) :
    ∀ acc, (aggGo acc rs).entries = acc.entries + rs.length := by
  induction rs with
  | nil => intro acc; simp [aggGo]
  | cons r rs ih =>
      intro acc
      rw [show aggGo acc (r :: rs) = aggGo (aggStep acc r) rs from rfl, ih]
      have hstep : (aggStep acc r).entries = acc.entries + 1 := by
        unfold aggStep
        split <;> rfl
      rw [hstep]
      simp only [List.length_cons]
      omega

lemma aggGo_daily (rs : List TRecord) (d : Int) :
    ∀ acc, (aggGo acc rs).daily d =
      (acc.daily d).add
        (sumStats ((rs.filter (fun r => _record_local_date r = some d)).map dayContrib)) := by
  induction rs with
  | nil =>
      intro acc
      simp [aggGo, sumStats, DayStats.add_zero]
  | cons r rs ih =>
      intro acc
      rw [show aggGo acc (r :: rs) = aggGo (aggStep acc r) rs from rfl, ih]
      rcases hld : _record_local_date r with _ | d0
      · have hstepd : (aggStep acc r).daily d = acc.daily d := by
          unfold aggStep
          rw [hld]
        rw [hstepd]
        simp [List.filter_cons, hld]
      · have hstepd : (aggStep acc r).daily d =
            (if d = d0 then (acc.daily d).add (dayContrib r) else acc.daily d) := by
          unfold aggStep
          rw [hld]
        rw [hstepd]
        by_cases hd : d = d0
        · subst hd
          rw [if_pos rfl]
          rw [List.filter_cons_of_pos (by simp [hld])]
          simp only [List.map_cons, sumStats]
          rw [DayStats.add_assoc]
        · rw [if_neg hd]
          rw [List.filter_cons_of_neg (by simp [hld]; exact fun h => hd h.symm)]

lemma aggGo_numeric (rs : List TRecord) :
    ∀ acc,
      (aggGo acc rs).insulin = acc.insulin +
        ((rs.filter (fun r => (_record_local_date r).isSome)).map
          (fun r => (dayContrib r).insulin)).sum ∧
      (aggGo acc rs).carbs = acc.carbs +
        ((rs.filter (fun r => (_record_local_date r).isSome)).map
          (fun r => (dayContrib r).carbs)).sum ∧
      (aggGo acc rs).calories = acc.calories +
        ((rs.filter (fun r => (_record_local_date r).isSome)).map
          (fun r => (dayContrib r).calories)).sum := by
  induction rs with
  | nil => intro acc; simp [aggGo]
  | cons r rs ih =>
      intro acc
      rw [show aggGo acc (r :: rs) = aggGo (aggStep acc r) rs from rfl]
      obtain ⟨ih1, ih2, ih3⟩ := ih (aggStep acc r)
      rcases hld : _record_local_date r with _ | d0
      · have hs : (aggStep acc r).insulin = acc.insulin ∧
            (aggStep acc r).carbs = acc.carbs ∧
            (aggStep acc r).calories = acc.calories := by
          unfold aggStep
          rw [hld]
          exact ⟨rfl, rfl, rfl⟩
        rw [List.filter_cons_of_neg (by simp [hld])]
        exact ⟨by rw [ih1, hs.1], by rw [ih2, hs.2.1], by rw [ih3, hs.2.2]⟩
      · have hs : (aggStep acc r).insulin = acc.insulin + (dayContrib r).insulin ∧
            (aggStep acc r).carbs = acc.carbs + (dayContrib r).carbs ∧
            (aggStep acc r).calories = acc.calories + (dayContrib r).calories := by
          unfold aggStep
          rw [hld]
          exact ⟨rfl, rfl, rfl⟩
        rw [List.filter_cons_of_pos (by simp [hld])]
        simp only [List.map_cons, List.sum_cons]
        refine ⟨?_, ?_, ?_⟩
        · rw [ih1, hs.1]; ring
        · rw [ih2, hs.2.1]; ring
        · rw [ih3, hs.2.2]; ring

/-- C9: aggregation is additive per local calendar day — each day
bucket equals the bucket-sum of the contributions (one entry plus the
picked insulin / carbs / calories) of exactly the records resolving to
that day; the overall entry count counts every record, including those
whose creation timestamp cannot be parsed; and the overall numeric
totals sum the contributions of exactly the date-resolvable records, so
an unparseable record contributes to no bucket and no numeric total. -/
theorem c9_aggregation_additive (rs : List TRecord) (d : Int) :
    (_aggregate_treatments rs).entries = rs.length ∧
    (_aggregate_treatments rs).daily d =
      sumStats ((rs.filter (fun r => _record_local_date r = some d)).map dayContrib) ∧
    (_aggregate_treatments rs).insulin =
      ((rs.filter (fun r => (_record_local_date r).isSome)).map
        (fun r => (dayContrib r).insulin)).sum ∧
    (_aggregate_treatments rs).carbs =
      ((rs.filter (fun r => (_record_local_date r).isSome)).map
        (fun r => (dayContrib r).carbs)).sum ∧
    (_aggregate_treatments rs).calories =
      ((rs.filter (fun r => (_record_local_date r).isSome)).map
        (fun r => (dayContrib r).calories)).sum := by
  unfold _aggregate_treatments
  have he := aggGo_entries rs ⟨0, 0, 0, 0, fun _ => DayStats.zero⟩
  have hd := aggGo_daily rs d ⟨0, 0, 0, 0, fun _ => DayStats.zero⟩
  have hn := aggGo_numeric rs ⟨0, 0, 0, 0, fun _ => DayStats.zero⟩
  refine ⟨by rw [he]; simp, ?_, ?_, ?_, ?_⟩
  · rw [hd]
    show DayStats.zero.add _ = _
    cases hsum : sumStats ((rs.filter
        (fun r => _record_local_date r = some d)).map dayContrib)
    simp [DayStats.add, DayStats.zero]
  · rw [hn.1]; show (0 : ℚ) + _ = _; ring
  · rw [hn.2.1]; show (0 : ℚ) + _ = _; ring
  · rw [hn.2.2]; show (0 : ℚ) + _ = _; ring

/-!
Concrete witnesses: each claim theorem with hypotheses applied at a
fully concrete input, every hypothesis discharged by computation. -/

/-- Environment for the C1 witness: PUT 404, DELETE 200, recreate
insert 500, and a restore that itself fails with 503 — the outcome must
still be the insert's error. -/
def envC1 : Env :=
  { putResp := { status := 404, body := "nf" }
    deleteResp := { status := 200, body := "" }
    insertResp := { status := 500, body := "boom" }
    restoreResp := { status := 503, body := "down" } }

/-- C1 at a concrete run: existing `{_id: T}`, empty patch, failing
restore; the result is the recreate error with the four-call trace. -/
theorem c1_witness :
    envC1.putResp.status = 404 ∧
    ns_update_treatment (.str ("T" : String)) []
        (some [(idKey, JVal.str ("T" : String))]) envC1 =
      (.insertFail 500 ("boom" : String),
        [Call.put (.str ("T" : String)) [],
         Call.delete (.str ("T" : String)),
         Call.post [popKey (dictUpdate [(idKey, JVal.str ("T" : String))] []) idKey],
         Call.post [popKey [(idKey, JVal.str ("T" : String))] idKey]]) :=
  ⟨rfl, c1_restore_preserves_original_error (.str ("T" : String)) []
    [(idKey, JVal.str ("T" : String))] envC1 rfl (Or.inl rfl) (by decide)⟩

/-- Environment for the C2 witness: the PUT fails with 404. -/
def envC2 : Env :=
  { putResp := { status := 404, body := "nf" }
    deleteResp := { status := 200, body := "" }
    insertResp := { status := 200, body := "" }
    restoreResp := { status := 200, body := "" } }

/-- C2 at a concrete failing PUT (404): with a snapshot the trace opens
PUT-then-DELETE; without one the 404 propagates after the lone PUT. -/
theorem c2_witness :
    is2xx envC2.putResp.status = false ∧
    ((∀ ex : Obj, envC2.putResp.status = 404 →
        (ns_update_treatment (.str ("T" : String)) [] (some ex) envC2).2.take 2 =
          [Call.put (.str ("T" : String)) [], Call.delete (.str ("T" : String))]) ∧
     (∀ existing : Option Obj, envC2.putResp.status ≠ 404 ∨ existing = none →
        ns_update_treatment (.str ("T" : String)) [] existing envC2 =
          (.putFail envC2.putResp.status envC2.putResp.body,
           [Call.put (.str ("T" : String)) []]))) :=
  ⟨by decide, c2_put_failure_dispatch (.str ("T" : String)) [] envC2 (by decide)⟩

/-- C3 at a concrete clean update `{a: 1}`: the amended round-trip
statement instantiated at missing notes. -/
theorem c3_witness :
    cleanMeta [(("a" : String), JVal.int 1)] ∧
    ((strFalsy none = true → [(("a" : String), JVal.int 1)] ≠ ([] : Obj) →
        parse_meta (apply_meta_updates none [(("a" : String), JVal.int 1)]) =
          applyUpdates seedMeta [(("a" : String), JVal.int 1)]) ∧
     (∀ (s : String) (payload : List Char) (m0 : Obj),
        (none : Option String) = some s → s.data = META_PREFIX.data ++ payload →
        jsonParseObj payload = some m0 → m0 ≠ [] → cleanMeta m0 →
        [(("a" : String), JVal.int 1)] ≠ ([] : Obj) →
        parse_meta (apply_meta_updates none [(("a" : String), JVal.int 1)]) =
          applyUpdates m0 [(("a" : String), JVal.int 1)]) ∧
     (∀ s : String, (none : Option String) = some s → s.data ≠ [] →
        parse_meta none = [] →
        apply_meta_updates none [(("a" : String), JVal.int 1)] = none)) :=
  ⟨by simp [cleanMeta, cleanVal],
   c3_meta_codec_roundtrip none [(("a" : String), JVal.int 1)]
     (by simp [cleanMeta, cleanVal])⟩

/-- Form input for the C5 witness: target `T`, every field absent. -/
def f5 : FormInput :=
  ⟨("T" : String), none, none, none, none, none, none, none, none⟩

/-- C5 at a concrete no-change request: empty record, all-absent form;
the patch is empty, the handler reports `updated = false`, and the
trace holds no store write. -/
theorem c5_witness :
    validateForm f5 = .ok ⟨none, none, none, none, none, none, none⟩ ∧
    (computePatch [] ⟨none, none, none, none, none, none, none⟩ = [] ∧
     update_treatment_handler f5 (some ([] : Obj)) none envEmptyOk =
       (.ok false, [Call.fetchById ("T" : String)]) ∧
     (∀ c ∈ (update_treatment_handler f5 (some ([] : Obj)) none envEmptyOk).2,
       isStoreWrite c = false)) :=
  ⟨rfl,
   c5_no_change_is_noop f5 (some ([] : Obj)) none envEmptyOk []
     (JVal.str ("T" : String)) [Call.fetchById ("T" : String)]
     ⟨none, none, none, none, none, none, none⟩
     rfl rfl rfl rfl rfl rfl rfl rfl rfl⟩

/-- Environment for the C6 witness: the PUT succeeds with body `{}`. -/
def envC6 : Env :=
  { putResp := { status := 200, body := "\x7b\x7d" }
    deleteResp := { status := 200, body := "" }
    insertResp := { status := 200, body := "" }
    restoreResp := { status := 200, body := "" } }

/-- C6 at a concrete 2xx PUT whose body parses as the empty object: the
updater returns the parsed body after the single PUT. -/
theorem c6_witness :
    is2xx envC6.putResp.status = true ∧
    ((∀ v : JTop, jsonParseTop envC6.putResp.body.data = some v →
        ns_update_treatment (.str ("T" : String)) [] none envC6 =
          (.ok v, [Call.put (.str ("T" : String)) []])) ∧
     (envC6.putResp.body.data = [] →
        ns_update_treatment (.str ("T" : String)) [] none envC6 =
          (.jsonFail, [Call.put (.str ("T" : String)) []]))) :=
  ⟨by decide, c6_put_success_returns_body (.str ("T" : String)) [] none envC6 (by decide)⟩

/-- A store with no rows at all, for the C8 witness. -/
def c8pages : Nat → List Unit := fun _ => []

/-- C8 at a concrete store (no rows, page size 1000): the fetch
succeeds, the total stays under the cap-plus-page bound, and any short
page ends the loop. -/
theorem c8_witness :
    (0 < 1000) ∧
    (fetch_treatments_between c8pages 1000 =
        Except.ok (fetchAux c8pages 1000 (by decide) 0 []) ∧
     (fetchAux c8pages 1000 (by decide) 0 []).length < MAX_NIGHTSCOUT_FETCH + 1000 ∧
     (∀ (skip : Nat) (acc : List Unit), (c8pages skip).length < 1000 →
        fetchAux c8pages 1000 (by decide) skip acc = acc ++ c8pages skip)) :=
  ⟨by decide, c8_paging_cap c8pages 1000 (by decide) (fun s => by simp [c8pages])⟩

/-- Form input for the C10 witness: target `T`, only `meal` set. -/
def f10 : FormInput :=
  ⟨("T" : String), none, none, none, none, none, none, some ("x" : String), none⟩

/-- Validated form for the C10 witness. -/
def v10 : ValidForm := ⟨none, none, none, none, none, some ("x" : String), none⟩

/-- Environment for the C10 witness: the PUT fails with 404. -/
def envC10 : Env :=
  { putResp := { status := 404, body := "nf" }
    deleteResp := { status := 200, body := "" }
    insertResp := { status := 200, body := "" }
    restoreResp := { status := 200, body := "" } }

/-- C10 at a concrete request setting `meal` on an empty record with a
404-answering store: the handler surfaces the store's not-found error
and the only store call is the single PUT. -/
theorem c10_witness :
    computePatch [] v10 ≠ [] ∧
    update_treatment_handler f10 (some ([] : Obj)) none envC10 =
      (.nsError (.putFail 404 ("nf" : String)),
       [Call.fetchById ("T" : String),
        Call.put (JVal.str ("T" : String)) (computePatch [] v10)]) :=
  ⟨by decide,
   c10_endpoint_404_no_fallback f10 (some ([] : Obj)) none envC10 []
     (JVal.str ("T" : String)) [Call.fetchById ("T" : String)] v10
     (computePatch [] v10) rfl rfl rfl (by decide) rfl⟩
